import Mathlib

/-!
# Blood request lifecycle and stock reservation

A shallow embedding of `backend/controllers/bloodRequestController.js` and of the
schema in `backend/models/bloodRequestModel.js`.

* A collection is a list of documents in natural order; a document is identified by
  its `_id`.
* Every awaited storage call may throw; `Faults` says which ones do in a given call
  of a handler.  `noFaults` is a run in which storage works.
* Request bodies hold arbitrary JSON values (`JVal`), since the handlers test them
  for truthiness before the schema casts them.
* Numbers are integers (`Int`): unit counts and stock quantities are whole numbers
  in the range where JavaScript arithmetic on them is exact.
* The `updatedAt` stamp written by `timestamps: true` is not modelled; `createdAt`
  is, since the listings sort on it.
-/

namespace BloodBank

/-- An identifier of a stored document (a MongoDB ObjectId). -/
abbrev ObjectId := Nat

/-- A JSON value as found in `req.body`; `obj` stands for an object or array that no
schema cast accepts, such as an empty object or an empty array. -/
inductive JVal where
  | undefined
  | null
  | bool (b : Bool)
  | num (n : Int)
  | str (s : String)
  | obj
  deriving DecidableEq, Repr

/-- JavaScript truthiness, as tested by `!v` and `v || w`. -/
def JVal.truthy : JVal → Bool
  | .undefined => false
  | .null => false
  | .bool b => b
  | .num n => n != 0
  | .str s => s != ""
  | .obj => true

/-- The value of `v || w`. -/
def JVal.or (v w : JVal) : JVal := if v.truthy then v else w

/-- What the schema casts do with a string: reading it as an ObjectId and as a
number.  Both belong to the storage library and are parameters of the model. -/
structure Casts where
  objectId : String → Option ObjectId
  number : String → Option Int

/-- Cast to the schema type `ObjectId`; `none` when the value is absent or does not
cast.  Only a string can denote an id. -/
def castObjectId (C : Casts) : JVal → Option ObjectId
  | .str s => C.objectId s
  | _ => none

/-- Cast to the schema type `String`; `none` when the value is absent or does not
cast.  Numbers and booleans are rendered as text. -/
def castString : JVal → Option String
  | .str s => some s
  | .num n => some (toString n)
  | .bool b => some (if b then "true" else "false")
  | _ => none

/-- Cast to the schema type `Number`; `none` when the value is absent or does not
cast.  The empty string casts to null, which is absent. -/
def castNumber (C : Casts) : JVal → Option Int
  | .num n => some n
  | .bool b => some (if b then 1 else 0)
  | .str s => if s = "" then none else C.number s
  | _ => none

/-- The `enum` of `bloodGroup` in `bloodRequestSchema`. -/
def bloodGroups : List String := ["A+", "A-", "B+", "B-", "AB+", "AB-", "O+", "O-"]

/-- The `enum` of `status` in `bloodRequestSchema`. -/
def statuses : List String := ["Pending", "Accepted", "Rejected", "Completed"]

/-- A document of the `BloodRequest` collection (`bloodRequestSchema`). -/
structure BloodRequest where
  _id : ObjectId
  hospital : ObjectId
  bloodLab : ObjectId
  bloodGroup : String
  units : Int
  status : String
  reason : Option String
  createdAt : Nat
  deriving DecidableEq, Repr

/-- A document of the `Blood` collection, with the fields the controller uses. -/
structure Blood where
  _id : ObjectId
  bloodLab : ObjectId
  bloodGroup : String
  quantity : Int
  deriving DecidableEq, Repr

/-- A document of the `Facility` collection, with the fields `populate` selects. -/
structure Facility where
  _id : ObjectId
  name : String
  email : String
  phone : String
  deriving DecidableEq, Repr

/-- The three collections. -/
structure Db where
  requests : List BloodRequest
  stock : List Blood
  facilities : List Facility
  deriving DecidableEq, Repr

/-- Which storage calls throw during one call of a handler. -/
structure Faults where
  create : Bool
  find : Bool
  findById : Bool
  findOne : Bool
  saveStock : Bool
  saveRequest : Bool
  deriving DecidableEq, Repr

/-- Storage works. -/
def noFaults : Faults := ⟨false, false, false, false, false, false⟩

/-- The body of a response. -/
inductive Payload where
  | message (m : String)
  | withRequest (m : String) (request : BloodRequest)
  | requests (rs : List (BloodRequest × Option Facility))
  deriving DecidableEq, Repr

/-- What `res.status(code).json(body)` sends; `res.json(body)` sends status 200. -/
structure Response where
  status : Nat
  body : Payload
  deriving DecidableEq, Repr

/-- `BloodRequest.findById(id)`. -/
def findById (rs : List BloodRequest) (id : ObjectId) : Option BloodRequest :=
  rs.find? (fun r => r._id == id)

/-- `Blood.findOne({ bloodLab, bloodGroup })`: the first match in natural order. -/
def findOne (st : List Blood) (lab : ObjectId) (group : String) : Option Blood :=
  st.find? (fun b => b.bloodLab == lab && b.bloodGroup == group)

/-- `stock.save()`: writes the document back under its `_id`. -/
def saveStock (st : List Blood) (s : Blood) : List Blood :=
  st.map (fun b => if b._id = s._id then s else b)

/-- `request.save()`: writes the document back under its `_id`. -/
def saveRequest (rs : List BloodRequest) (r : BloodRequest) : List BloodRequest :=
  rs.map (fun d => if d._id = r._id then r else d)

/-- The id given to a new document: one that no stored document has. -/
def freshId (rs : List BloodRequest) : ObjectId :=
  (rs.map (fun r => r._id)).foldr max 0 + 1

/-- `BloodRequest.create({ hospital, bloodLab, bloodGroup, units })`: casts and
validates against `bloodRequestSchema` (`required`, `enum`, `min: 1`), fills in the
default status, and inserts.  `none` when validation throws. -/
def create (C : Casts) (rs : List BloodRequest) (now : Nat) (hospital : ObjectId)
    (bloodLab bloodGroup units : JVal) : Option (List BloodRequest × BloodRequest) :=
  match castObjectId C bloodLab, castString bloodGroup, castNumber C units with
  | some lab, some group, some n =>
    if group ∈ bloodGroups ∧ 1 ≤ n then
      let request : BloodRequest :=
        { _id := freshId rs, hospital := hospital, bloodLab := lab, bloodGroup := group,
          units := n, status := "Pending", reason := none, createdAt := now }
      some (rs ++ [request], request)
    else none
  | _, _, _ => none

/-- The fields read from `req.body` by `sendBloodRequest`. -/
structure SendBody where
  bloodLab : JVal
  bloodGroup : JVal
  units : JVal
  deriving DecidableEq, Repr

/-- The handler `sendBloodRequest`; `hospitalId` is `req.user._id`. -/
def sendBloodRequest (C : Casts) (f : Faults) (db : Db) (hospitalId : ObjectId)
    (body : SendBody) (now : Nat) : Db × Response :=
  if !body.bloodLab.truthy || !body.bloodGroup.truthy || !body.units.truthy then
    (db, ⟨400, .message "All fields are required"⟩)
  else if f.create then
    (db, ⟨500, .message "Failed to send request"⟩)
  else
    match create C db.requests now hospitalId body.bloodLab body.bloodGroup body.units with
    | none => (db, ⟨500, .message "Failed to send request"⟩)
    | some (rs, request) =>
      ({ db with requests := rs }, ⟨200, .withRequest "Blood request sent successfully" request⟩)

/-- The call `.populate(path, "name email phone")` on one reference: the facility
with that id, or null. -/
def populate (fs : List Facility) (id : ObjectId) : Option Facility :=
  fs.find? (fun x => x._id == id)

/-- The call `.sort({ createdAt: -1 })`. -/
def sortByCreatedAtDesc (rs : List BloodRequest) : List BloodRequest :=
  rs.insertionSort (fun a b => b.createdAt ≤ a.createdAt)

/-- The handler `getLabRequests`; `labId` is `req.user._id`. -/
def getLabRequests (f : Faults) (db : Db) (labId : ObjectId) : Db × Response :=
  if f.find then
    (db, ⟨500, .message "Failed to load requests"⟩)
  else
    let requests := sortByCreatedAtDesc (db.requests.filter (fun r => r.bloodLab == labId))
    (db, ⟨200, .requests (requests.map (fun r => (r, populate db.facilities r.hospital)))⟩)

/-- The handler `acceptBloodRequest`; `requestId` is `req.params.requestId` once
`findById` has cast it to an ObjectId (`acceptBloodRequestParam` includes the cast). -/
def acceptBloodRequest (f : Faults) (db : Db) (requestId : ObjectId) : Db × Response :=
  if f.findById then
    (db, ⟨500, .message "Failed to accept request"⟩)
  else
    match findById db.requests requestId with
    | none => (db, ⟨404, .message "Request not found"⟩)
    | some request =>
      if f.findOne then
        (db, ⟨500, .message "Failed to accept request"⟩)
      else
        match findOne db.stock request.bloodLab request.bloodGroup with
        | none => (db, ⟨400, .message "Not enough stock available"⟩)
        | some stock =>
          if stock.quantity < request.units then
            (db, ⟨400, .message "Not enough stock available"⟩)
          else if f.saveStock then
            (db, ⟨500, .message "Failed to accept request"⟩)
          else
            let stock1 : Blood := { stock with quantity := stock.quantity - request.units }
            let db1 : Db := { db with stock := saveStock db.stock stock1 }
            if f.saveRequest then
              (db1, ⟨500, .message "Failed to accept request"⟩)
            else
              let request1 : BloodRequest := { request with status := "Accepted" }
              ({ db1 with requests := saveRequest db1.requests request1 },
                ⟨200, .withRequest "Request Accepted" request1⟩)

/-- The handler `rejectBloodRequest`; `requestId` is `req.params.requestId` once
`findById` has cast it to an ObjectId (`rejectBloodRequestParam` includes the cast)
and `reason` is `req.body.reason`.  The assigned
reason is cast to the schema type `String`, and a value that does not cast makes
`save` throw. -/
def rejectBloodRequest (f : Faults) (db : Db) (requestId : ObjectId) (reason : JVal) :
    Db × Response :=
  if f.findById then
    (db, ⟨500, .message "Failed to reject request"⟩)
  else
    match findById db.requests requestId with
    | none => (db, ⟨404, .message "Request not found"⟩)
    | some request =>
      match castString (reason.or (.str "Not specified")) with
      | none => (db, ⟨500, .message "Failed to reject request"⟩)
      | some text =>
        if f.saveRequest then
          (db, ⟨500, .message "Failed to reject request"⟩)
        else
          let request1 : BloodRequest :=
            { request with status := "Rejected", reason := some text }
          ({ db with requests := saveRequest db.requests request1 },
            ⟨200, .withRequest "Request Rejected" request1⟩)

/-- The handler `getHospitalRequests`; `hospitalId` is `req.user._id`. -/
def getHospitalRequests (f : Faults) (db : Db) (hospitalId : ObjectId) : Db × Response :=
  if f.find then
    (db, ⟨500, .message "Failed to load history"⟩)
  else
    let requests := sortByCreatedAtDesc (db.requests.filter (fun r => r.hospital == hospitalId))
    (db, ⟨200, .requests (requests.map (fun r => (r, populate db.facilities r.bloodLab)))⟩)

/-- The handler `acceptBloodRequest` on the route parameter as received:
`findById` first casts `req.params.requestId` to an ObjectId and throws when the
string does not cast, which the handler answers with 500. -/
def acceptBloodRequestParam (C : Casts) (f : Faults) (db : Db) (requestId : String) :
    Db × Response :=
  match C.objectId requestId with
  | none => (db, ⟨500, .message "Failed to accept request"⟩)
  | some id => acceptBloodRequest f db id

/-- The handler `rejectBloodRequest` on the route parameter as received: `findById`
first casts `req.params.requestId` to an ObjectId and throws when the string does not
cast, which the handler answers with 500. -/
def rejectBloodRequestParam (C : Casts) (f : Faults) (db : Db) (requestId : String)
    (reason : JVal) : Db × Response :=
  match C.objectId requestId with
  | none => (db, ⟨500, .message "Failed to reject request"⟩)
  | some id => rejectBloodRequest f db id reason

/-- One call of a handler, with its arguments and the storage faults it meets. -/
inductive Op where
  | submit (f : Faults) (hospitalId : ObjectId) (body : SendBody) (now : Nat)
  | labList (f : Faults) (labId : ObjectId)
  | accept (f : Faults) (requestId : ObjectId)
  | reject (f : Faults) (requestId : ObjectId) (reason : JVal)
  | hospitalList (f : Faults) (hospitalId : ObjectId)

/-- Runs one call to completion. -/
def step (C : Casts) (db : Db) : Op → Db × Response
  | .submit f h body now => sendBloodRequest C f db h body now
  | .labList f c => getLabRequests f db c
  | .accept f rid => acceptBloodRequest f db rid
  | .reject f rid reason => rejectBloodRequest f db rid reason
  | .hospitalList f c => getHospitalRequests f db c

/-- Runs calls one after another, each completing before the next starts. -/
def run (C : Casts) (db : Db) (ops : List Op) : Db :=
  ops.foldl (fun d op => (step C d op).1) db

/-- Every stock quantity is non-negative. -/
def StockNonneg (db : Db) : Prop := ∀ b ∈ db.stock, 0 ≤ b.quantity

/-- What `populate` leaves in place of the reference `id`: a stored facility with
that id, or null when there is none. -/
def Joined (fs : List Facility) (id : ObjectId) (p : Option Facility) : Prop :=
  (∀ x, p = some x → x ∈ fs ∧ x._id = id) ∧ (p = none → ∀ x ∈ fs, x._id ≠ id)

/-- The outcome `out` of a call on `db` is a listing of the caller's requests: the
store is as it was, the status is 200, the listed requests are the stored requests
that satisfy `owned`, each once per stored copy, and each carries the facility its
`party` reference points to. -/
def ListsOwned (db : Db) (owned : BloodRequest → Bool) (party : BloodRequest → ObjectId)
    (out : Db × Response) : Prop :=
  out.1 = db ∧ ∃ entries : List (BloodRequest × Option Facility),
    out.2 = ⟨200, .requests entries⟩
      ∧ (entries.map Prod.fst).Perm (db.requests.filter owned)
      ∧ (∀ r, r ∈ entries.map Prod.fst ↔ r ∈ db.requests ∧ owned r = true)
      ∧ ∀ e ∈ entries, Joined db.facilities (party e.1) e.2

/-- The requests a listing response carries, in the order sent. -/
def Response.listed (res : Response) : List BloodRequest :=
  match res.body with
  | .requests entries => entries.map Prod.fst
  | _ => []

/-- What a lab route hands to its handler: the authenticated caller `req.user._id`,
`req.params.requestId` and `req.body.reason`. -/
structure LabReq where
  user : ObjectId
  requestId : ObjectId
  reason : JVal
  deriving DecidableEq, Repr

/-- The handler `acceptBloodRequest` on a whole request object: it reads
`req.params.requestId` and nothing else of `req`. -/
def acceptBloodRequestOf (f : Faults) (db : Db) (req : LabReq) : Db × Response :=
  acceptBloodRequest f db req.requestId

/-- The handler `rejectBloodRequest` on a whole request object: it reads
`req.params.requestId` and `req.body.reason` and nothing else of `req`. -/
def rejectBloodRequestOf (f : Faults) (db : Db) (req : LabReq) : Db × Response :=
  rejectBloodRequest f db req.requestId req.reason

/-- What `bloodRequestSchema` asks of a stored request: `min: 1` on the units and
the two `enum`s. -/
def ValidRequest (r : BloodRequest) : Prop :=
  1 ≤ r.units ∧ r.bloodGroup ∈ bloodGroups ∧ r.status ∈ statuses

/-- The stock quantity of a lab and blood group as `acceptBloodRequest` reads it: that
of the record `findOne` returns, and 0 when there is none. -/
def quantityOf (st : List Blood) (lab : ObjectId) (group : String) : Int :=
  match findOne st lab group with
  | some s => s.quantity
  | none => 0

/-- The sum of the units of the requests to a lab for a blood group whose status is
Accepted. -/
def acceptedUnits (rs : List BloodRequest) (lab : ObjectId) (group : String) : Int :=
  ((rs.filter (fun r => r.bloodLab == lab && r.bloodGroup == group
    && r.status == "Accepted")).map (fun r => r.units)).sum

/-- What one request adds to the Accepted units of a lab and blood group. -/
def acceptedWeight (lab : ObjectId) (group : String) (r : BloodRequest) : Int :=
  if r.bloodLab = lab ∧ r.bloodGroup = group ∧ r.status = "Accepted" then r.units else 0

/-- The request with this id, if stored, is not Accepted. -/
def notAccepted (db : Db) (requestId : ObjectId) : Bool :=
  match findById db.requests requestId with
  | some r => r.status != "Accepted"
  | none => true

/-- The accept changes the store without answering 200: its request save throws after
its stock save went through. -/
def cutShort (f : Faults) (db : Db) (requestId : ObjectId) : Bool :=
  decide ((acceptBloodRequest f db requestId).2.status ≠ 200
    ∧ (acceptBloodRequest f db requestId).1 ≠ db)

/-- A call that leaves reserved stock and Accepted requests in step: an accept or a
reject aimed at a request that is not Accepted (or unknown), the accept moreover not
cut short between its two saves.  Submissions and listings always qualify. -/
def orderly (db : Db) : Op → Bool
  | .accept f requestId => !cutShort f db requestId && notAccepted db requestId
  | .reject _ requestId _ => notAccepted db requestId
  | _ => true

/-- Every call of the sequence is orderly in the store it is run in. -/
def orderlyRun (C : Casts) : Db → List Op → Bool
  | _, [] => true
  | db, op :: rest => orderly db op && orderlyRun C (step C db op).1 rest

/-- The responses of calls run one after another, in order. -/
def runResponses (C : Casts) : Db → List Op → List Response
  | _, [] => []
  | db, op :: rest => (step C db op).2 :: runResponses C (step C db op).1 rest

/-- The fault flags of the storage calls a handler makes on its way to a 200. -/
def usedFaults : Op → List Bool
  | .submit f _ _ _ => [f.create]
  | .labList f _ => [f.find]
  | .accept f _ => [f.findById, f.findOne, f.saveStock, f.saveRequest]
  | .reject f _ _ => [f.findById, f.saveRequest]
  | .hospitalList f _ => [f.find]

/-- The same call in a run in which storage works. -/
def Op.clear : Op → Op
  | .submit _ h body now => .submit noFaults h body now
  | .labList _ c => .labList noFaults c
  | .accept _ rid => .accept noFaults rid
  | .reject _ rid reason => .reject noFaults rid reason
  | .hospitalList _ c => .hospitalList noFaults c

/-- A response that hides no failure: its status is 200, 400, 404 or 500, and unless
it is 200 the body is a message that is not empty. -/
def Reported (res : Response) : Prop :=
  res.status ∈ [200, 400, 404, 500]
    ∧ (res.status ≠ 200 → ∃ m, res.body = .message m ∧ m ≠ "")

/-- The status of the stored request with this id, if any. -/
def statusOf (db : Db) (requestId : ObjectId) : Option String :=
  (findById db.requests requestId).map (fun r => r.status)

/-- Of `n` requests of `units` each, how many a stock of `quantity` can serve: the
smaller of `n` and the whole part of `quantity / units`. -/
def served (n : Nat) (quantity units : Int) : Nat :=
  min n (quantity / units).toNat

/-- The request with this id is stored, is Pending and asks the lab for `units` of
the blood group. -/
def asks (db : Db) (lab : ObjectId) (group : String) (units : Int) (requestId : ObjectId) :
    Bool :=
  match findById db.requests requestId with
  | some r => r.bloodLab == lab && r.bloodGroup == group && r.units == units
      && r.status == "Pending"
  | none => false

/-- A call that is not an accept aimed at a Rejected request. -/
def sparesRejected (db : Db) : Op → Bool
  | .accept _ requestId =>
    match findById db.requests requestId with
    | some r => r.status != "Rejected"
    | none => true
  | _ => true

/-- No call of the sequence is an accept aimed at a request that is Rejected in the
store the call is run in. -/
def sparesRejectedRun (C : Casts) : Db → List Op → Bool
  | _, [] => true
  | db, op :: rest => sparesRejected db op && sparesRejectedRun C (step C db op).1 rest

/-- What a call has done when it has succeeded, told from the store it leaves and
the body it sends, not from the status: a submission has stored one new request that
passes the schema and sent it back; a listing has sent the caller's requests; an
acceptance has written the lowered stock record and the Accepted request and sent
the request back; a rejection has written the Rejected request and sent it back. -/
def Achieved (C : Casts) (db : Db) (op : Op) (out : Db × Response) : Prop :=
  match op with
  | .submit _ hospitalId body now =>
    ∃ lab group n, castObjectId C body.bloodLab = some lab
      ∧ castString body.bloodGroup = some group ∧ castNumber C body.units = some n
      ∧ group ∈ bloodGroups ∧ 1 ≤ n
      ∧ out.1 = { db with requests := db.requests ++
          [{ _id := freshId db.requests, hospital := hospitalId, bloodLab := lab,
             bloodGroup := group, units := n, status := "Pending", reason := none,
             createdAt := now }] }
      ∧ out.2.body = .withRequest "Blood request sent successfully"
          { _id := freshId db.requests, hospital := hospitalId, bloodLab := lab,
            bloodGroup := group, units := n, status := "Pending", reason := none,
            createdAt := now }
  | .labList _ labId =>
    out.1 = db ∧ out.2.body = .requests
      ((sortByCreatedAtDesc (db.requests.filter (fun r => r.bloodLab == labId))).map
        (fun r => (r, populate db.facilities r.hospital)))
  | .accept _ requestId =>
    ∃ r s, findById db.requests requestId = some r
      ∧ findOne db.stock r.bloodLab r.bloodGroup = some s ∧ r.units ≤ s.quantity
      ∧ out.1 = { requests := saveRequest db.requests { r with status := "Accepted" }
                  stock := saveStock db.stock { s with quantity := s.quantity - r.units }
                  facilities := db.facilities }
      ∧ out.2.body = .withRequest "Request Accepted" { r with status := "Accepted" }
  | .reject _ requestId reason =>
    ∃ r text, findById db.requests requestId = some r
      ∧ castString (reason.or (.str "Not specified")) = some text
      ∧ out.1 = { db with
          requests := saveRequest db.requests { r with status := "Rejected", reason := some text } }
      ∧ out.2.body = .withRequest "Request Rejected"
          { r with status := "Rejected", reason := some text }
  | .hospitalList _ hospitalId =>
    out.1 = db ∧ out.2.body = .requests
      ((sortByCreatedAtDesc (db.requests.filter (fun r => r.hospital == hospitalId))).map
        (fun r => (r, populate db.facilities r.bloodLab)))

/-! ## Concurrent acceptance

A call of `acceptBloodRequest` is suspended at its four awaits only (`findById`,
`findOne`, `stock.save()`, `request.save()`); between two awaits it runs alone.
Concurrent calls are therefore interleavings of these four storage calls. -/

/-- A call of `acceptBloodRequest` between two of its awaits, with what it holds
locally: `start` before `findById`, `found` before `findOne`, `checked` after the
stock guard with the quantity lowered on its own copy and before `stock.save()`,
`saved` with the status set on its own copy and before `request.save()`, `done` once
the response is sent. -/
inductive Attempt where
  | start (requestId : ObjectId)
  | found (request : BloodRequest)
  | checked (request : BloodRequest) (stock : Blood)
  | saved (request : BloodRequest)
  | done (res : Response)
  deriving DecidableEq, Repr

/-- The next storage call of an attempt, made on the store as it is then, and the
code that follows it up to the next await. -/
def Attempt.resume (db : Db) : Attempt → Db × Attempt
  | .start requestId =>
    match findById db.requests requestId with
    | none => (db, .done ⟨404, .message "Request not found"⟩)
    | some request => (db, .found request)
  | .found request =>
    match findOne db.stock request.bloodLab request.bloodGroup with
    | none => (db, .done ⟨400, .message "Not enough stock available"⟩)
    | some stock =>
      if stock.quantity < request.units then
        (db, .done ⟨400, .message "Not enough stock available"⟩)
      else
        (db, .checked request { stock with quantity := stock.quantity - request.units })
  | .checked request stock =>
    ({ db with stock := saveStock db.stock stock }, .saved { request with status := "Accepted" })
  | .saved request =>
    ({ db with requests := saveRequest db.requests request },
      .done ⟨200, .withRequest "Request Accepted" request⟩)
  | .done res => (db, .done res)

/-- One scheduling choice: attempt number `i` makes its next storage call. -/
def advance (st : Db × List Attempt) (i : Nat) : Db × List Attempt :=
  match st.2[i]? with
  | none => st
  | some t => ((t.resume st.1).1, st.2.set i (t.resume st.1).2)

/-- The attempts run concurrently, their storage calls in the order of `schedule`. -/
def interleave (st : Db × List Attempt) (schedule : List Nat) : Db × List Attempt :=
  schedule.foldl advance st

/-- The attempt has answered. -/
def Attempt.finished : Attempt → Bool
  | .done _ => true
  | _ => false

/-- The attempt has answered 200. -/
def Attempt.succeeded : Attempt → Bool
  | .done res => res.status == 200
  | _ => false

/-- The attempt has saved its stock record. -/
def Attempt.wrote : Attempt → Bool
  | .saved _ => true
  | .done res => res.status == 200
  | _ => false

/-- The request asks the lab for `units` of the blood group. -/
def Fits (lab : ObjectId) (group : String) (units : Int) (r : BloodRequest) : Prop :=
  r.bloodLab = lab ∧ r.bloodGroup = group ∧ r.units = units

/-- What holds of one of the concurrent attempts once `w` attempts have saved their
stock record: it aims at one of the requests, the copies it holds fit, the quantity on
its copy of the stock record is at least 0 and at least what `w + 1` reservations
leave, and it has only answered 400 once the stock was used up. -/
def AttemptOk (lab : ObjectId) (group : String) (units : Int) (s0 : Blood) (w : Nat)
    (rids : List ObjectId) : Attempt → Prop
  | .start requestId => requestId ∈ rids
  | .found r => Fits lab group units r
  | .checked r s1 =>
    Fits lab group units r ∧ s1._id = s0._id ∧ s1.bloodLab = lab ∧ s1.bloodGroup = group
      ∧ 0 ≤ s1.quantity ∧ s0.quantity - units * ((w + 1 : Nat) : Int) ≤ s1.quantity
  | .saved r => Fits lab group units r
  | .done res => res.status = 200 ∨ (s0.quantity / units).toNat ≤ w

/-- What holds of the store and the attempts at every moment of a concurrent run: the
stock record is there with a quantity of at least 0 and of at least what the
reservations made so far leave, the requests are there, and every attempt is in
order. -/
def Coherent (lab : ObjectId) (group : String) (units : Int) (s0 : Blood)
    (rids : List ObjectId) (st : Db × List Attempt) : Prop :=
  (∃ s, findOne st.1.stock lab group = some s ∧ s._id = s0._id ∧ 0 ≤ s.quantity
      ∧ s0.quantity - units * ((st.2.countP Attempt.wrote : Nat) : Int) ≤ s.quantity)
    ∧ (∀ rid ∈ rids, ∃ r, findById st.1.requests rid = some r ∧ Fits lab group units r)
    ∧ ∀ t ∈ st.2, AttemptOk lab group units s0 (st.2.countP Attempt.wrote) rids t

/-! ## Sample data -/

/-- A request of hospital 10 to lab 20 for 2 units of O-. -/
def sampleRequest : BloodRequest :=
  { _id := 1, hospital := 10, bloodLab := 20, bloodGroup := "O-", units := 2,
    status := "Pending", reason := none, createdAt := 100 }

/-- Lab 20 holds 5 units of O-. -/
def sampleStock : Blood := { _id := 7, bloodLab := 20, bloodGroup := "O-", quantity := 5 }

/-- Lab 20 holds 1 unit of O-. -/
def lowStock : Blood := { _id := 7, bloodLab := 20, bloodGroup := "O-", quantity := 1 }

/-- One pending request and enough stock to serve it. -/
def sampleDb : Db := { requests := [sampleRequest], stock := [sampleStock], facilities := [] }

/-- One pending request and too little stock to serve it. -/
def lowDb : Db := { requests := [sampleRequest], stock := [lowStock], facilities := [] }

/-- One pending request and no stock record at all. -/
def noStockDb : Db := { requests := [sampleRequest], stock := [], facilities := [] }

/-- A cast table that reads "lab20" as the id 20 and no string as a number. -/
def sampleCasts : Casts :=
  { objectId := fun s => if s = "lab20" then some 20 else none, number := fun _ => none }

/-- The value of a hexadecimal digit. -/
def hexValue (c : Char) : Option Nat :=
  if 48 ≤ c.toNat ∧ c.toNat ≤ 57 then some (c.toNat - 48)
  else if 97 ≤ c.toNat ∧ c.toNat ≤ 102 then some (c.toNat - 87)
  else if 65 ≤ c.toNat ∧ c.toNat ≤ 70 then some (c.toNat - 55)
  else none

/-- A string of 24 hexadecimal digits read as the id it spells; no other string is
an ObjectId. -/
def parseObjectId (s : String) : Option ObjectId :=
  if s.length = 24 then
    s.toList.foldl (fun acc c =>
      match acc, hexValue c with
      | some a, some d => some (16 * a + d)
      | _, _ => none) (some 0)
  else none

/-- A cast table that reads ids as the driver does and no string as a number. -/
def hexCasts : Casts := { objectId := parseObjectId, number := fun _ => none }

/-- Storage works until the request is saved, and that save throws. -/
def requestSaveFails : Faults := { noFaults with saveRequest := true }

/-- No request yet; lab 20 holds 5 units of O-. -/
def freshDb : Db := { requests := [], stock := [sampleStock], facilities := [] }

/-- A submission by hospital 10 to lab 20 for 2 units of O-, made at time `now`. -/
def sampleSubmit (now : Nat) : Op :=
  .submit noFaults 10 ⟨.str "lab20", .str "O-", .num 2⟩ now

/-- Three pending requests, with ids 1, 2 and 3, of 2 units of O- each to lab 20,
which holds 5 units. -/
def threeDb : Db :=
  run sampleCasts freshDb [sampleSubmit 5, sampleSubmit 6, sampleSubmit 7]

/-- The sample request, already Accepted, and 5 units in stock. -/
def acceptedDb : Db :=
  { requests := [{ sampleRequest with status := "Accepted" }], stock := [sampleStock],
    facilities := [] }

/-! ## Lookup after a save -/

theorem findById_id {rs : List BloodRequest} {id : ObjectId} {r : BloodRequest}
    (h : findById rs id = some r) : r._id = id := by
  have := List.find?_some h
  simpa using this

theorem findOne_key {st : List Blood} {lab : ObjectId} {group : String} {s : Blood}
    (h : findOne st lab group = some s) : s.bloodLab = lab ∧ s.bloodGroup = group := by
  have := List.find?_some h
  simpa using this

theorem findById_mem {rs : List BloodRequest} {id : ObjectId} {r : BloodRequest}
    (h : findById rs id = some r) : r ∈ rs :=
  List.mem_of_find?_eq_some h

theorem findOne_mem {st : List Blood} {lab : ObjectId} {group : String} {s : Blood}
    (h : findOne st lab group = some s) : s ∈ st :=
  List.mem_of_find?_eq_some h

/-- After `request.save()` the request read back under its id is the saved one. -/
theorem findById_saveRequest (rs : List BloodRequest) (id : ObjectId) (r r1 : BloodRequest)
    (h : findById rs id = some r) (hid : r1._id = r._id) :
    findById (saveRequest rs r1) id = some r1 := by
  have hr : r._id = id := findById_id h
  induction rs with
  | nil => simp [findById] at h
  | cons d t ih =>
    simp only [findById, List.find?_cons, saveRequest, List.map_cons] at h ih ⊢
    by_cases hd : d._id = id
    · have h1 : d._id = r1._id := hd.trans (hr.symm.trans hid.symm)
      simp [h1, hid, hr]
    · have h1 : ¬ d._id = r1._id := fun e => hd (e.trans (hid.trans hr))
      simp only [h1, if_false]
      have h2 : (d._id == id) = false := by simpa using hd
      rw [h2] at h ⊢
      exact ih h

/-- After `stock.save()` the stock record read back under its key is the saved one. -/
theorem findOne_saveStock (st : List Blood) (lab : ObjectId) (group : String) (s s1 : Blood)
    (h : findOne st lab group = some s) (hid : s1._id = s._id)
    (hlab : s1.bloodLab = s.bloodLab) (hgroup : s1.bloodGroup = s.bloodGroup) :
    findOne (saveStock st s1) lab group = some s1 := by
  obtain ⟨hl, hg⟩ := findOne_key h
  have hkey : (s1.bloodLab == lab && s1.bloodGroup == group) = true := by
    simp [hlab, hgroup, hl, hg]
  induction st with
  | nil => simp [findOne] at h
  | cons b t ih =>
    simp only [findOne, List.find?_cons, saveStock, List.map_cons] at h ih ⊢
    by_cases hb : b._id = s1._id
    · simp only [hb, if_true, hkey]
    · simp only [hb, if_false]
      cases hm : (b.bloodLab == lab && b.bloodGroup == group) with
      | true =>
        rw [hm] at h
        simp only [Option.some.injEq] at h
        exact absurd (by rw [h, hid]) hb
      | false =>
        rw [hm] at h
        exact ih h

/-! ## Acceptance -/

/-- C1. When the request exists and the stock record of its lab and blood group holds
at least the requested units, `acceptBloodRequest` answers 200 with the updated
request, the stock record read back holds the old quantity minus the units, and the
request read back has status Accepted. -/
theorem accept_success (db : Db) (requestId : ObjectId) (r : BloodRequest) (s : Blood)
    (hr : findById db.requests requestId = some r)
    (hs : findOne db.stock r.bloodLab r.bloodGroup = some s)
    (hq : r.units ≤ s.quantity) :
    (acceptBloodRequest noFaults db requestId).2
        = ⟨200, .withRequest "Request Accepted" { r with status := "Accepted" }⟩
      ∧ findOne (acceptBloodRequest noFaults db requestId).1.stock r.bloodLab r.bloodGroup
        = some { s with quantity := s.quantity - r.units }
      ∧ findById (acceptBloodRequest noFaults db requestId).1.requests requestId
        = some { r with status := "Accepted" } := by
  have hq1 : ¬ s.quantity < r.units := by omega
  simp only [acceptBloodRequest, noFaults, hr, hs, hq1, if_false, Bool.false_eq_true, true_and]
  exact ⟨findOne_saveStock _ _ _ s _ hs rfl rfl rfl, findById_saveRequest _ _ r _ hr rfl⟩

/-- C1, at stock 5 and units 2: stock 3 and status Accepted. -/
theorem accept_success_witness :
    (acceptBloodRequest noFaults sampleDb 1).2
        = ⟨200, .withRequest "Request Accepted" { sampleRequest with status := "Accepted" }⟩
      ∧ findOne (acceptBloodRequest noFaults sampleDb 1).1.stock 20 "O-"
        = some { sampleStock with quantity := 5 - 2 }
      ∧ findById (acceptBloodRequest noFaults sampleDb 1).1.requests 1
        = some { sampleRequest with status := "Accepted" } :=
  accept_success sampleDb 1 sampleRequest sampleStock (by decide) (by decide) (by decide)

/-- C2. When the request exists and its lab has no stock record for its blood group,
or one holding fewer than the requested units, `acceptBloodRequest` answers 400 "Not
enough stock available" and the whole store is as it was. -/
theorem accept_insufficient (db : Db) (requestId : ObjectId) (r : BloodRequest)
    (hr : findById db.requests requestId = some r)
    (hs : findOne db.stock r.bloodLab r.bloodGroup = none
      ∨ ∃ s, findOne db.stock r.bloodLab r.bloodGroup = some s ∧ s.quantity < r.units) :
    acceptBloodRequest noFaults db requestId
      = (db, ⟨400, .message "Not enough stock available"⟩) := by
  rcases hs with hs | ⟨s, hs, hq⟩
  · simp [acceptBloodRequest, noFaults, hr, hs]
  · simp [acceptBloodRequest, noFaults, hr, hs, hq]

/-- C2, at stock 1 and units 2. -/
theorem accept_insufficient_witness :
    acceptBloodRequest noFaults lowDb 1 = (lowDb, ⟨400, .message "Not enough stock available"⟩) :=
  accept_insufficient lowDb 1 sampleRequest (by decide)
    (Or.inr ⟨lowStock, by decide, by decide⟩)

/-- C3, as stated, fails: when the request save throws after the stock save went
through, the stock is left decremented (5 to 3) while the request is still Pending. -/
theorem accept_partial_on_request_save_fault :
    (acceptBloodRequest requestSaveFails sampleDb 1).1.stock
        = [{ sampleStock with quantity := 3 }]
      ∧ (acceptBloodRequest requestSaveFails sampleDb 1).1.requests = [sampleRequest]
      ∧ (acceptBloodRequest requestSaveFails sampleDb 1).1 ≠ sampleDb
      ∧ (acceptBloodRequest requestSaveFails sampleDb 1).2
        = ⟨500, .message "Failed to accept request"⟩ := by
  decide

/-- The three ways a call of `acceptBloodRequest` can end. -/
theorem accept_cases (f : Faults) (db : Db) (requestId : ObjectId) :
    ((acceptBloodRequest f db requestId).1 = db
        ∧ (acceptBloodRequest f db requestId).2.status ≠ 200)
      ∨ (∃ r s, findById db.requests requestId = some r
          ∧ findOne db.stock r.bloodLab r.bloodGroup = some s
          ∧ r.units ≤ s.quantity
          ∧ f.saveStock = false ∧ f.saveRequest = false
          ∧ (acceptBloodRequest f db requestId).1
            = { db with
                stock := saveStock db.stock { s with quantity := s.quantity - r.units }
                requests := saveRequest db.requests { r with status := "Accepted" } }
          ∧ (acceptBloodRequest f db requestId).2.status = 200)
      ∨ (∃ r s, findById db.requests requestId = some r
          ∧ findOne db.stock r.bloodLab r.bloodGroup = some s
          ∧ r.units ≤ s.quantity
          ∧ f.saveStock = false ∧ f.saveRequest = true
          ∧ (acceptBloodRequest f db requestId).1
            = { db with
                stock := saveStock db.stock { s with quantity := s.quantity - r.units } }
          ∧ (acceptBloodRequest f db requestId).2
            = ⟨500, .message "Failed to accept request"⟩) := by
  unfold acceptBloodRequest
  by_cases h1 : f.findById = true
  · left; simp [h1]
  simp only [h1, if_false]
  cases hr : findById db.requests requestId with
  | none => left; simp
  | some r =>
    by_cases h2 : f.findOne = true
    · left; simp [h2]
    simp only [h2, if_false]
    cases hs : findOne db.stock r.bloodLab r.bloodGroup with
    | none => left; simp
    | some s =>
      by_cases hq : s.quantity < r.units
      · left; simp [hq]
      simp only [hq, if_false]
      by_cases h3 : f.saveStock = true
      · left; simp [h3]
      simp only [h3, if_false]
      by_cases h4 : f.saveRequest = true
      · right; right
        refine ⟨r, s, rfl, hs, by omega, by simp [h3], h4, ?_, ?_⟩ <;> simp [h4]
      · right; left
        refine ⟨r, s, rfl, hs, by omega, by simp [h3], by simp [h4], ?_, ?_⟩
          <;> simp [h4]

/-- C3, amended. Whatever storage calls throw, a call of `acceptBloodRequest` ends in
one of three ways: the store is as it was and the status is not 200; or the stock
decrement and the status change are both written and the status is 200; or the
request save threw after the stock save, the stock decrement is written, the requests
are as they were, and the status is 500. -/
theorem accept_outcomes (f : Faults) (db : Db) (requestId : ObjectId) :
    ((acceptBloodRequest f db requestId).1 = db
        ∧ (acceptBloodRequest f db requestId).2.status ≠ 200)
      ∨ (∃ r s, findById db.requests requestId = some r
          ∧ findOne db.stock r.bloodLab r.bloodGroup = some s
          ∧ r.units ≤ s.quantity
          ∧ f.saveStock = false ∧ f.saveRequest = false
          ∧ (acceptBloodRequest f db requestId).1
            = { db with
                stock := saveStock db.stock { s with quantity := s.quantity - r.units }
                requests := saveRequest db.requests { r with status := "Accepted" } }
          ∧ (acceptBloodRequest f db requestId).2.status = 200)
      ∨ (∃ r s, findById db.requests requestId = some r
          ∧ findOne db.stock r.bloodLab r.bloodGroup = some s
          ∧ r.units ≤ s.quantity
          ∧ f.saveStock = false ∧ f.saveRequest = true
          ∧ (acceptBloodRequest f db requestId).1
            = { db with
                stock := saveStock db.stock { s with quantity := s.quantity - r.units } }
          ∧ (acceptBloodRequest f db requestId).2
            = ⟨500, .message "Failed to accept request"⟩) :=
  accept_cases f db requestId

/-! ## Stock never goes negative -/

theorem mem_saveStock {st : List Blood} {s b : Blood} (h : b ∈ saveStock st s) :
    b = s ∨ b ∈ st := by
  simp only [saveStock, List.mem_map] at h
  obtain ⟨a, ha, rfl⟩ := h
  by_cases e : a._id = s._id
  · left; simp [e]
  · right; simpa [e] using ha

theorem send_stock (C : Casts) (f : Faults) (db : Db) (h : ObjectId) (body : SendBody)
    (now : Nat) : (sendBloodRequest C f db h body now).1.stock = db.stock := by
  unfold sendBloodRequest
  split
  · rfl
  · split
    · rfl
    · split <;> rfl

theorem reject_stock (f : Faults) (db : Db) (requestId : ObjectId) (reason : JVal) :
    (rejectBloodRequest f db requestId reason).1.stock = db.stock := by
  unfold rejectBloodRequest
  split
  · rfl
  · split
    · rfl
    · split
      · rfl
      · split <;> rfl

theorem labList_db (f : Faults) (db : Db) (c : ObjectId) : (getLabRequests f db c).1 = db := by
  unfold getLabRequests
  split <;> rfl

theorem hospitalList_db (f : Faults) (db : Db) (c : ObjectId) :
    (getHospitalRequests f db c).1 = db := by
  unfold getHospitalRequests
  split <;> rfl

theorem accept_stockNonneg (f : Faults) (db : Db) (requestId : ObjectId)
    (h : StockNonneg db) : StockNonneg (acceptBloodRequest f db requestId).1 := by
  rcases accept_cases f db requestId with ⟨e, _⟩ | ⟨r, s, _, hs, hq, _, _, e, _⟩
      | ⟨r, s, _, hs, hq, _, _, e, _⟩
  · rw [e]; exact h
  all_goals
    rw [e]
    intro b hb
    rcases mem_saveStock hb with rfl | hb
    · show 0 ≤ s.quantity - r.units
      omega
    · exact h b hb

theorem step_stockNonneg (C : Casts) (db : Db) (op : Op) (h : StockNonneg db) :
    StockNonneg (step C db op).1 := by
  cases op with
  | submit f hid body now =>
    intro b hb
    simp only [step, send_stock] at hb
    exact h b hb
  | labList f c => simpa only [step, labList_db] using h
  | accept f rid => exact accept_stockNonneg f db rid h
  | reject f rid reason =>
    intro b hb
    simp only [step, reject_stock] at hb
    exact h b hb
  | hospitalList f c => simpa only [step, hospitalList_db] using h

/-- C4. From a store in which every stock quantity is at least 0, after every finite
sequence of calls run one after another (submit, list, accept, reject, with any
storage faults) every stock quantity is still at least 0. -/
theorem run_stockNonneg (C : Casts) (db : Db) (ops : List Op) (h : StockNonneg db) :
    StockNonneg (run C db ops) := by
  induction ops generalizing db with
  | nil => exact h
  | cons op t ih => exact ih _ (step_stockNonneg C db op h)

/-- C4, on the sample store: accepting the same request three times cannot take the
stock of 5 below 0. -/
theorem run_stockNonneg_witness :
    StockNonneg sampleDb
      ∧ StockNonneg (run sampleCasts sampleDb
          [.accept noFaults 1, .accept noFaults 1, .accept noFaults 1]) :=
  ⟨by simp [StockNonneg, sampleDb, sampleStock],
    run_stockNonneg sampleCasts sampleDb _ (by simp [StockNonneg, sampleDb, sampleStock])⟩

/-! ## Submission -/

/-- C5. When one of `bloodLab`, `bloodGroup`, `units` is missing or falsy,
`sendBloodRequest` answers 400 "All fields are required" and the store (requests and
stock) is as it was, whatever the storage would have done. -/
theorem send_missing_field (C : Casts) (f : Faults) (db : Db) (hospitalId : ObjectId)
    (body : SendBody) (now : Nat)
    (h : body.bloodLab.truthy = false ∨ body.bloodGroup.truthy = false
      ∨ body.units.truthy = false) :
    sendBloodRequest C f db hospitalId body now
      = (db, ⟨400, .message "All fields are required"⟩) := by
  unfold sendBloodRequest
  rcases h with h | h | h <;> simp [h]

/-- C5, with an empty blood group and with 0 units. -/
theorem send_missing_field_witness :
    sendBloodRequest sampleCasts noFaults sampleDb 10 ⟨.str "lab20", .str "", .num 2⟩ 5
        = (sampleDb, ⟨400, .message "All fields are required"⟩)
      ∧ sendBloodRequest sampleCasts noFaults sampleDb 10 ⟨.str "lab20", .str "O-", .num 0⟩ 5
        = (sampleDb, ⟨400, .message "All fields are required"⟩) :=
  ⟨send_missing_field sampleCasts noFaults sampleDb 10 _ 5 (Or.inr (Or.inl (by decide))),
    send_missing_field sampleCasts noFaults sampleDb 10 _ 5 (Or.inr (Or.inr (by decide)))⟩

theorem lt_freshId (rs : List BloodRequest) : ∀ d ∈ rs, d._id < freshId rs := by
  induction rs with
  | nil => simp
  | cons a t ih =>
    intro d hd
    simp only [freshId, List.map_cons, List.foldr_cons] at ih ⊢
    rcases List.mem_cons.mp hd with rfl | hd
    · exact Nat.lt_succ_of_le (Nat.le_max_left _ _)
    · exact Nat.lt_of_lt_of_le (ih d hd) (Nat.succ_le_succ (Nat.le_max_right _ _))

/-- C6. For a hospital `h` and a body holding a string that denotes the lab id `lab`,
one of the eight blood groups and a number of units of at least 1, `sendBloodRequest`
answers 200 with the new request; the stored requests are the old ones, unchanged,
followed by that one request; it belongs to `h`, holds the supplied lab, group and
units, is Pending and has no reason; its id is the id of no older request; the stock
is as it was. -/
theorem send_success (C : Casts) (db : Db) (h : ObjectId) (s : String) (lab : ObjectId)
    (g : String) (n : Int) (now : Nat)
    (hs : s ≠ "") (hlab : C.objectId s = some lab) (hg : g ∈ bloodGroups) (hn : 1 ≤ n) :
    sendBloodRequest C noFaults db h ⟨.str s, .str g, .num n⟩ now
        = ({ db with requests := db.requests ++
              [{ _id := freshId db.requests, hospital := h, bloodLab := lab, bloodGroup := g,
                 units := n, status := "Pending", reason := none, createdAt := now }] },
            ⟨200, .withRequest "Blood request sent successfully"
              { _id := freshId db.requests, hospital := h, bloodLab := lab, bloodGroup := g,
                units := n, status := "Pending", reason := none, createdAt := now }⟩)
      ∧ ∀ d ∈ db.requests, d._id ≠ freshId db.requests := by
  refine ⟨?_, fun d hd => Nat.ne_of_lt (lt_freshId _ d hd)⟩
  have hg1 : g ≠ "" := by
    rintro rfl
    simp [bloodGroups] at hg
  have hn1 : n ≠ 0 := by omega
  simp [sendBloodRequest, JVal.truthy, noFaults, create, castObjectId, castString,
    castNumber, hs, hg1, hn1, hlab, hg, hn]

/-- C6, for hospital 10 asking lab 20 for 2 units of O-. -/
theorem send_success_witness :
    sendBloodRequest sampleCasts noFaults noStockDb 10 ⟨.str "lab20", .str "O-", .num 2⟩ 5
        = ({ noStockDb with requests := noStockDb.requests ++
              [{ _id := freshId noStockDb.requests, hospital := 10, bloodLab := 20,
                 bloodGroup := "O-", units := 2, status := "Pending", reason := none,
                 createdAt := 5 }] },
            ⟨200, .withRequest "Blood request sent successfully"
              { _id := freshId noStockDb.requests, hospital := 10, bloodLab := 20,
                bloodGroup := "O-", units := 2, status := "Pending", reason := none,
                createdAt := 5 }⟩)
      ∧ ∀ d ∈ noStockDb.requests, d._id ≠ freshId noStockDb.requests :=
  send_success sampleCasts noStockDb 10 "lab20" 20 "O-" 2 5 (by decide) (by decide)
    (by decide) (by decide)

/-! ## Rejection -/

/-- With a reason that is absent or a scalar, rejecting a stored request answers 200,
the request read back is Rejected and the stock is as it was. -/
theorem reject_ok (db : Db) (requestId : ObjectId) (r : BloodRequest) (reason : JVal)
    (hr : findById db.requests requestId = some r) (hreason : reason ≠ .obj) :
    ∃ text : String,
      (rejectBloodRequest noFaults db requestId reason).2
          = ⟨200, .withRequest "Request Rejected"
              { r with status := "Rejected", reason := some text }⟩
        ∧ findById (rejectBloodRequest noFaults db requestId reason).1.requests requestId
          = some { r with status := "Rejected", reason := some text }
        ∧ (rejectBloodRequest noFaults db requestId reason).1.stock = db.stock := by
  have hc : ∃ text, castString (reason.or (.str "Not specified")) = some text := by
    cases reason with
    | undefined => exact ⟨_, rfl⟩
    | null => exact ⟨_, rfl⟩
    | bool b => cases b <;> exact ⟨_, rfl⟩
    | num n =>
      by_cases h0 : n = 0
      · exact ⟨"Not specified", by simp [JVal.or, JVal.truthy, h0, castString]⟩
      · exact ⟨toString n, by simp [JVal.or, JVal.truthy, h0, castString]⟩
    | str s =>
      by_cases h0 : s = ""
      · exact ⟨"Not specified", by simp [JVal.or, JVal.truthy, h0, castString]⟩
      · exact ⟨s, by simp [JVal.or, JVal.truthy, h0, castString]⟩
    | obj => exact absurd rfl hreason
  obtain ⟨text, hc⟩ := hc
  refine ⟨text, ?_, ?_, reject_stock _ _ _ _⟩
  · simp [rejectBloodRequest, noFaults, hr, hc]
  · simp only [rejectBloodRequest, noFaults, hr, hc, Bool.false_eq_true, if_false]
    exact findById_saveRequest _ _ r _ hr rfl

/-- C7, as stated, fails: with a reason that is a JSON object, which does not cast to
the schema type `String`, `rejectBloodRequest` on a stored request answers 500 and
the request stays Pending. -/
theorem reject_object_reason_fails :
    rejectBloodRequest noFaults noStockDb 1 .obj
        = (noStockDb, ⟨500, .message "Failed to reject request"⟩)
      ∧ findById (rejectBloodRequest noFaults noStockDb 1 .obj).1.requests 1
        = some sampleRequest
      ∧ sampleRequest.status = "Pending" := by
  decide

/-- C7, amended. When the request exists, whatever the stock holds and whatever status
the request has: with a reason that is left out or is a scalar (text, a number, a
boolean) `rejectBloodRequest` answers 200 with the updated request, the request read
back has status Rejected and the stock is as it was; with a reason that does not cast
to text (a JSON object or array) it answers 500 "Failed to reject request" and the
store is as it was. -/
theorem reject_outcome (db : Db) (requestId : ObjectId) (r : BloodRequest) (reason : JVal)
    (hr : findById db.requests requestId = some r) :
    (reason ≠ .obj → ∃ text : String,
        (rejectBloodRequest noFaults db requestId reason).2
            = ⟨200, .withRequest "Request Rejected"
                { r with status := "Rejected", reason := some text }⟩
          ∧ findById (rejectBloodRequest noFaults db requestId reason).1.requests requestId
            = some { r with status := "Rejected", reason := some text }
          ∧ (rejectBloodRequest noFaults db requestId reason).1.stock = db.stock)
      ∧ (reason = .obj →
        rejectBloodRequest noFaults db requestId reason
          = (db, ⟨500, .message "Failed to reject request"⟩)) := by
  refine ⟨reject_ok db requestId r reason hr, fun h => ?_⟩
  subst h
  simp [rejectBloodRequest, noFaults, hr, JVal.or, JVal.truthy, castString]

/-- C7, amended, for a request whose lab has no stock record: with the reason left
out it becomes Rejected, with an object as reason the call answers 500. -/
theorem reject_outcome_witness :
    (∃ text : String,
        (rejectBloodRequest noFaults noStockDb 1 .undefined).2
            = ⟨200, .withRequest "Request Rejected"
                { sampleRequest with status := "Rejected", reason := some text }⟩
          ∧ findById (rejectBloodRequest noFaults noStockDb 1 .undefined).1.requests 1
            = some { sampleRequest with status := "Rejected", reason := some text }
          ∧ (rejectBloodRequest noFaults noStockDb 1 .undefined).1.stock = noStockDb.stock)
      ∧ rejectBloodRequest noFaults noStockDb 1 .obj
          = (noStockDb, ⟨500, .message "Failed to reject request"⟩) :=
  ⟨(reject_outcome noStockDb 1 sampleRequest .undefined (by decide)).1 (by decide),
    (reject_outcome noStockDb 1 sampleRequest .obj (by decide)).2 rfl⟩

/-- C8, as stated, fails: a supplied reason that is the empty string is not kept; the
request read back carries "Not specified". -/
theorem reject_empty_reason_replaced :
    findById (rejectBloodRequest noFaults sampleDb 1 (.str "")).1.requests 1
        = some { sampleRequest with status := "Rejected", reason := some "Not specified" }
      ∧ (findById (rejectBloodRequest noFaults sampleDb 1 (.str "")).1.requests 1).map
          (fun r => r.reason) ≠ some (some "") := by
  decide

/-- C8, amended. For an existing request, after `rejectBloodRequest` the request read
back carries the supplied text when a non-empty string is supplied, and carries
"Not specified" when the reason is left out, is null or is the empty string. -/
theorem reject_reason (db : Db) (requestId : ObjectId) (r : BloodRequest)
    (hr : findById db.requests requestId = some r) :
    (∀ s : String, s ≠ "" →
        findById (rejectBloodRequest noFaults db requestId (.str s)).1.requests requestId
          = some { r with status := "Rejected", reason := some s })
      ∧ (∀ v : JVal, v = .undefined ∨ v = .null ∨ v = .str "" →
        findById (rejectBloodRequest noFaults db requestId v).1.requests requestId
          = some { r with status := "Rejected", reason := some "Not specified" }) := by
  constructor
  · intro s hs
    have hc : castString ((JVal.str s).or (.str "Not specified")) = some s := by
      simp [JVal.or, JVal.truthy, hs, castString]
    simp only [rejectBloodRequest, noFaults, hr, hc, Bool.false_eq_true, if_false]
    exact findById_saveRequest _ _ r _ hr rfl
  · intro v hv
    have hc : castString (v.or (.str "Not specified")) = some "Not specified" := by
      rcases hv with rfl | rfl | rfl <;> rfl
    simp only [rejectBloodRequest, noFaults, hr, hc, Bool.false_eq_true, if_false]
    exact findById_saveRequest _ _ r _ hr rfl

/-- C8, amended, on the sample store: "no stock" is kept, a missing reason becomes
"Not specified". -/
theorem reject_reason_witness :
    findById (rejectBloodRequest noFaults sampleDb 1 (.str "no stock")).1.requests 1
        = some { sampleRequest with status := "Rejected", reason := some "no stock" }
      ∧ findById (rejectBloodRequest noFaults sampleDb 1 .undefined).1.requests 1
        = some { sampleRequest with status := "Rejected", reason := some "Not specified" } :=
  ⟨(reject_reason sampleDb 1 sampleRequest (by decide)).1 "no stock" (by decide),
    (reject_reason sampleDb 1 sampleRequest (by decide)).2 .undefined (Or.inl rfl)⟩

/-! ## Unknown request -/

/-- When no stored request has the given id and the lookup itself works, both handlers
answer 404 "Request not found" and leave the store as it was. -/
theorem not_found_of_absent (f : Faults) (db : Db) (requestId : ObjectId) (reason : JVal)
    (hf : f.findById = false) (h : findById db.requests requestId = none) :
    acceptBloodRequest f db requestId = (db, ⟨404, .message "Request not found"⟩)
      ∧ rejectBloodRequest f db requestId reason
        = (db, ⟨404, .message "Request not found"⟩) := by
  simp [acceptBloodRequest, rejectBloodRequest, hf, h]

/-- C9, as stated, fails: "abc" is the id of no stored request, yet `acceptBloodRequest`
and `rejectBloodRequest` answer 500, not 404: the string does not cast to an ObjectId
and `findById` throws. -/
theorem malformed_id_answers_500 :
    hexCasts.objectId "abc" = none
      ∧ acceptBloodRequestParam hexCasts noFaults noStockDb "abc"
        = (noStockDb, ⟨500, .message "Failed to accept request"⟩)
      ∧ rejectBloodRequestParam hexCasts noFaults noStockDb "abc" (.str "late")
        = (noStockDb, ⟨500, .message "Failed to reject request"⟩) := by
  decide

/-- C9, amended. When the lookup itself works: for a request id that casts to an
ObjectId which no stored request has, `acceptBloodRequest` and `rejectBloodRequest`
each answer 404 "Request not found" and leave the store (requests and stock) as it
was, whatever the stock holds; for a request id that does not cast to an ObjectId
they answer 500 and leave the store as it was. -/
theorem request_not_found (C : Casts) (f : Faults) (db : Db) (requestId : String)
    (reason : JVal) (hf : f.findById = false) :
    (∀ id, C.objectId requestId = some id → findById db.requests id = none →
        acceptBloodRequestParam C f db requestId
            = (db, ⟨404, .message "Request not found"⟩)
          ∧ rejectBloodRequestParam C f db requestId reason
            = (db, ⟨404, .message "Request not found"⟩))
      ∧ (C.objectId requestId = none →
        acceptBloodRequestParam C f db requestId
            = (db, ⟨500, .message "Failed to accept request"⟩)
          ∧ rejectBloodRequestParam C f db requestId reason
            = (db, ⟨500, .message "Failed to reject request"⟩)) := by
  constructor
  · intro id hid h
    simp only [acceptBloodRequestParam, rejectBloodRequestParam, hid]
    exact not_found_of_absent f db id reason hf h
  · intro hid
    simp only [acceptBloodRequestParam, rejectBloodRequestParam, hid, and_self]

/-- C9, amended, on a store without any stock: the well-formed id that spells 99 is
unknown and answered with 404, the malformed id "abc" with 500. -/
theorem request_not_found_witness :
    (acceptBloodRequestParam hexCasts noFaults noStockDb "000000000000000000000063"
          = (noStockDb, ⟨404, .message "Request not found"⟩)
        ∧ rejectBloodRequestParam hexCasts noFaults noStockDb "000000000000000000000063"
            (.str "late")
          = (noStockDb, ⟨404, .message "Request not found"⟩))
      ∧ (acceptBloodRequestParam hexCasts noFaults noStockDb "abc"
          = (noStockDb, ⟨500, .message "Failed to accept request"⟩)
        ∧ rejectBloodRequestParam hexCasts noFaults noStockDb "abc" (.str "late")
          = (noStockDb, ⟨500, .message "Failed to reject request"⟩)) :=
  ⟨(request_not_found hexCasts noFaults noStockDb "000000000000000000000063" (.str "late")
      (by decide)).1 99 (by decide) (by decide),
    (request_not_found hexCasts noFaults noStockDb "abc" (.str "late") (by decide)).2
      (by decide)⟩

/-! ## Listings -/

theorem populate_joined (fs : List Facility) (id : ObjectId) :
    Joined fs id (populate fs id) := by
  constructor
  · intro x hx
    refine ⟨List.mem_of_find?_eq_some hx, ?_⟩
    have := List.find?_some hx
    simpa using this
  · intro hn x hx
    have := List.find?_eq_none.mp hn x hx
    simpa using this

theorem listsOwned_sorted (db : Db) (owned : BloodRequest → Bool)
    (party : BloodRequest → ObjectId) :
    ListsOwned db owned party
      (db, ⟨200, .requests ((sortByCreatedAtDesc (db.requests.filter owned)).map
        (fun r => (r, populate db.facilities (party r))))⟩) := by
  have hfst : ((sortByCreatedAtDesc (db.requests.filter owned)).map
      (fun r => (r, populate db.facilities (party r)))).map Prod.fst
      = sortByCreatedAtDesc (db.requests.filter owned) := by
    simp [List.map_map, Function.comp_def]
  have hperm : (sortByCreatedAtDesc (db.requests.filter owned)).Perm
      (db.requests.filter owned) := List.perm_insertionSort _ _
  refine ⟨rfl, _, rfl, ?_, ?_, ?_⟩
  · rw [hfst]; exact hperm
  · intro r
    rw [hfst, hperm.mem_iff, List.mem_filter]
  · intro e he
    obtain ⟨r, _, rfl⟩ := List.mem_map.mp he
    exact populate_joined _ _

/-- C10. When storage works, `getLabRequests` for caller `c` answers 200 with exactly
the stored requests whose `bloodLab` is `c`, each with the facility its `hospital`
points to, and `getHospitalRequests` answers 200 with exactly the stored requests
whose `hospital` is `c`, each with the facility its `bloodLab` points to; neither
changes the store. -/
theorem listings_owned (db : Db) (c : ObjectId) :
    ListsOwned db (fun r => r.bloodLab == c) (fun r => r.hospital)
        (getLabRequests noFaults db c)
      ∧ ListsOwned db (fun r => r.hospital == c) (fun r => r.bloodLab)
        (getHospitalRequests noFaults db c) :=
  ⟨listsOwned_sorted db _ _, listsOwned_sorted db _ _⟩

theorem sortByCreatedAtDesc_perm (rs : List BloodRequest) :
    (sortByCreatedAtDesc rs).Perm rs :=
  List.perm_insertionSort _ rs

theorem sortByCreatedAtDesc_sorted (rs : List BloodRequest) :
    (sortByCreatedAtDesc rs).Pairwise (fun a b => b.createdAt ≤ a.createdAt) := by
  haveI : IsTotal BloodRequest (fun a b => b.createdAt ≤ a.createdAt) :=
    ⟨fun a b => Nat.le_total _ _⟩
  haveI : IsTrans BloodRequest (fun a b => b.createdAt ≤ a.createdAt) :=
    ⟨fun _ _ _ h1 h2 => Nat.le_trans h2 h1⟩
  exact List.sorted_insertionSort _ rs

theorem labList_listed (db : Db) (c : ObjectId) :
    (getLabRequests noFaults db c).2.listed
      = sortByCreatedAtDesc (db.requests.filter (fun r => r.bloodLab == c)) := by
  simp [getLabRequests, noFaults, Response.listed, List.map_map, Function.comp_def]

theorem hospitalList_listed (db : Db) (c : ObjectId) :
    (getHospitalRequests noFaults db c).2.listed
      = sortByCreatedAtDesc (db.requests.filter (fun r => r.hospital == c)) := by
  simp [getHospitalRequests, noFaults, Response.listed, List.map_map, Function.comp_def]

/-- C11. When storage works, the list sent by `getLabRequests` and the list sent by
`getHospitalRequests` are ordered by creation time descending: every entry was
created no earlier than every entry after it, the next one in particular; and each
list is a permutation of the caller's owned requests. -/
theorem listings_sorted (db : Db) (c : ObjectId) :
    ((getLabRequests noFaults db c).2.listed.Pairwise (fun a b => b.createdAt ≤ a.createdAt)
        ∧ (getLabRequests noFaults db c).2.listed.Perm
          (db.requests.filter (fun r => r.bloodLab == c)))
      ∧ ((getHospitalRequests noFaults db c).2.listed.Pairwise
          (fun a b => b.createdAt ≤ a.createdAt)
        ∧ (getHospitalRequests noFaults db c).2.listed.Perm
          (db.requests.filter (fun r => r.hospital == c))) := by
  rw [labList_listed, hospitalList_listed]
  exact ⟨⟨sortByCreatedAtDesc_sorted _, sortByCreatedAtDesc_perm _⟩,
    ⟨sortByCreatedAtDesc_sorted _, sortByCreatedAtDesc_perm _⟩⟩

/-- C12, as stated, fails: two submissions made at the same time 5 by hospital 10 to
lab 20 are listed next to each other with equal creation times, in both listings. -/
theorem listing_ties_not_strict :
    ((getLabRequests noFaults (run sampleCasts freshDb [sampleSubmit 5, sampleSubmit 5])
        20).2.listed.map (fun r => r.createdAt)) = [5, 5]
      ∧ ((getHospitalRequests noFaults (run sampleCasts freshDb [sampleSubmit 5, sampleSubmit 5])
        10).2.listed.map (fun r => r.createdAt)) = [5, 5]
      ∧ ¬ (getLabRequests noFaults (run sampleCasts freshDb [sampleSubmit 5, sampleSubmit 5])
        20).2.listed.Pairwise (fun a b => b.createdAt < a.createdAt) := by
  decide

theorem sortByCreatedAtDesc_strict (rs : List BloodRequest)
    (h : (rs.map (fun r => r.createdAt)).Nodup) :
    (sortByCreatedAtDesc rs).Pairwise (fun a b => b.createdAt < a.createdAt) := by
  have hn : ((sortByCreatedAtDesc rs).map (fun r => r.createdAt)).Nodup :=
    ((sortByCreatedAtDesc_perm rs).map _).nodup_iff.mpr h
  have hne : (sortByCreatedAtDesc rs).Pairwise (fun a b => a.createdAt ≠ b.createdAt) :=
    List.pairwise_map.mp hn
  exact ((sortByCreatedAtDesc_sorted rs).and hne).imp
    (fun h => Nat.lt_of_le_of_ne h.1 (Ne.symm h.2))

/-- C12, amended. When storage works, the list sent by `getLabRequests`, and the list
sent by `getHospitalRequests`, is a permutation of the caller's owned requests, so
that requests created at the same time are all listed; every entry was created no
earlier than every entry after it; and when no two of the caller's owned requests
have the same creation time, every entry was created strictly later than every entry
after it, the next one in particular. -/
theorem listings_strict (db : Db) (c : ObjectId) :
    ((getLabRequests noFaults db c).2.listed.Perm
          (db.requests.filter (fun r => r.bloodLab == c))
        ∧ (getLabRequests noFaults db c).2.listed.Pairwise
          (fun a b => b.createdAt ≤ a.createdAt)
        ∧ (((db.requests.filter (fun r => r.bloodLab == c)).map
              (fun r => r.createdAt)).Nodup →
          (getLabRequests noFaults db c).2.listed.Pairwise
            (fun a b => b.createdAt < a.createdAt)))
      ∧ ((getHospitalRequests noFaults db c).2.listed.Perm
          (db.requests.filter (fun r => r.hospital == c))
        ∧ (getHospitalRequests noFaults db c).2.listed.Pairwise
          (fun a b => b.createdAt ≤ a.createdAt)
        ∧ (((db.requests.filter (fun r => r.hospital == c)).map
              (fun r => r.createdAt)).Nodup →
          (getHospitalRequests noFaults db c).2.listed.Pairwise
            (fun a b => b.createdAt < a.createdAt))) := by
  rw [labList_listed, hospitalList_listed]
  exact ⟨⟨sortByCreatedAtDesc_perm _, sortByCreatedAtDesc_sorted _,
      sortByCreatedAtDesc_strict _⟩,
    ⟨sortByCreatedAtDesc_perm _, sortByCreatedAtDesc_sorted _,
      sortByCreatedAtDesc_strict _⟩⟩

/-- C12, amended, for two submissions made at times 5 and 6: the later one is listed
first, strictly before the earlier one. -/
theorem listings_strict_witness :
    ((getLabRequests noFaults (run sampleCasts freshDb [sampleSubmit 5, sampleSubmit 6])
        20).2.listed.map (fun r => r.createdAt)) = [6, 5]
      ∧ (getLabRequests noFaults (run sampleCasts freshDb [sampleSubmit 5, sampleSubmit 6])
        20).2.listed.Pairwise (fun a b => b.createdAt < a.createdAt)
      ∧ (getHospitalRequests noFaults (run sampleCasts freshDb [sampleSubmit 5, sampleSubmit 6])
        10).2.listed.Pairwise (fun a b => b.createdAt < a.createdAt) :=
  ⟨by decide,
    (listings_strict (run sampleCasts freshDb [sampleSubmit 5, sampleSubmit 6]) 20).1.2.2
      (by decide),
    (listings_strict (run sampleCasts freshDb [sampleSubmit 5, sampleSubmit 6]) 10).2.2.2
      (by decide)⟩

/-! ## What a call leaves alone -/

theorem saveStock_eq_map (st : List Blood) (s s1 : Blood)
    (hst : (st.map (fun b => b._id)).Nodup) (hs : s ∈ st) (hid : s1._id = s._id) :
    saveStock st s1 = st.map (fun b => if b = s then s1 else b) := by
  unfold saveStock
  apply List.map_congr_left
  intro b hb
  by_cases e : b = s
  · simp [e, hid]
  · have : ¬ b._id = s1._id := fun h =>
      e (List.inj_on_of_nodup_map hst hb hs (h.trans hid))
    simp [e, this]

theorem saveRequest_eq_map (rs : List BloodRequest) (r r1 : BloodRequest)
    (hrs : (rs.map (fun d => d._id)).Nodup) (hr : r ∈ rs) (hid : r1._id = r._id) :
    saveRequest rs r1 = rs.map (fun d => if d = r then r1 else d) := by
  unfold saveRequest
  apply List.map_congr_left
  intro d hd
  by_cases e : d = r
  · simp [e, hid]
  · have : ¬ d._id = r1._id := fun h =>
      e (List.inj_on_of_nodup_map hrs hd hr (h.trans hid))
    simp [e, this]

/-- C13. In a store whose documents have distinct ids, when `acceptBloodRequest` on
the request `r` answers 200, one stock record `s`, stored once and keyed by
`r.bloodLab` and `r.bloodGroup`, has its quantity lowered by `r.units`; every other
stock record is as it was, in place, none added and none removed; every request
other than `r` is as it was; and of `r` only the status is changed, to Accepted. -/
theorem accept_frame (f : Faults) (db : Db) (requestId : ObjectId) (r : BloodRequest)
    (hr : findById db.requests requestId = some r)
    (hreq : (db.requests.map (fun d => d._id)).Nodup)
    (hst : (db.stock.map (fun b => b._id)).Nodup)
    (hok : (acceptBloodRequest f db requestId).2.status = 200) :
    ∃ s : Blood, s.bloodLab = r.bloodLab ∧ s.bloodGroup = r.bloodGroup
      ∧ db.stock.count s = 1 ∧ db.requests.count r = 1
      ∧ (acceptBloodRequest f db requestId).1
        = { requests := db.requests.map
              (fun d => if d = r then { r with status := "Accepted" } else d)
            stock := db.stock.map
              (fun b => if b = s then { s with quantity := s.quantity - r.units } else b)
            facilities := db.facilities } := by
  rcases accept_cases f db requestId with ⟨_, h⟩ | ⟨r1, s, hr1, hs, _, _, _, e, _⟩
      | ⟨_, _, _, _, _, _, _, _, h⟩
  · exact absurd hok h
  · have er : r1 = r := Option.some.inj (hr1.symm.trans hr)
    subst er
    obtain ⟨hl, hg⟩ := findOne_key hs
    refine ⟨s, hl, hg, List.count_eq_one_of_mem hst.of_map (findOne_mem hs),
      List.count_eq_one_of_mem hreq.of_map (findById_mem hr), ?_⟩
    rw [e, saveStock_eq_map db.stock s { s with quantity := s.quantity - r1.units } hst
        (findOne_mem hs) rfl,
      saveRequest_eq_map db.requests r1 { r1 with status := "Accepted" } hreq
        (findById_mem hr) rfl]
  · rw [h] at hok
    exact absurd hok (by decide)

/-- C13, on the sample store: the stock record goes from 5 to 3 and the request
becomes Accepted. -/
theorem accept_frame_witness :
    ∃ s : Blood, s.bloodLab = sampleRequest.bloodLab ∧ s.bloodGroup = sampleRequest.bloodGroup
      ∧ sampleDb.stock.count s = 1 ∧ sampleDb.requests.count sampleRequest = 1
      ∧ (acceptBloodRequest noFaults sampleDb 1).1
        = { requests := sampleDb.requests.map
              (fun d => if d = sampleRequest then { sampleRequest with status := "Accepted" }
                else d)
            stock := sampleDb.stock.map
              (fun b => if b = s then { s with quantity := s.quantity - sampleRequest.units }
                else b)
            facilities := sampleDb.facilities } :=
  accept_frame noFaults sampleDb 1 sampleRequest (by decide) (by decide) (by decide)
    (by decide)

/-- C14. Whatever the input and whatever storage calls throw, `sendBloodRequest` and
`rejectBloodRequest` leave the stock as it was, whether they answer 200 or not. -/
theorem send_reject_leave_stock (C : Casts) (f : Faults) (db : Db) (hospitalId : ObjectId)
    (body : SendBody) (now : Nat) (requestId : ObjectId) (reason : JVal) :
    (sendBloodRequest C f db hospitalId body now).1.stock = db.stock
      ∧ (rejectBloodRequest f db requestId reason).1.stock = db.stock :=
  ⟨send_stock C f db hospitalId body now, reject_stock f db requestId reason⟩

/-- C15, as stated, fails: facility 21 is not the lab 20 the sample request is
addressed to, yet its call of `acceptBloodRequest` makes the request Accepted and
takes lab 20's stock from 5 to 3, and its call of `rejectBloodRequest` makes the
request Rejected. -/
theorem other_caller_mutates :
    (21 : ObjectId) ≠ sampleRequest.bloodLab
      ∧ (acceptBloodRequestOf noFaults sampleDb ⟨21, 1, .undefined⟩).1
        = { requests := [{ sampleRequest with status := "Accepted" }]
            stock := [{ sampleStock with quantity := 3 }]
            facilities := [] }
      ∧ (rejectBloodRequestOf noFaults sampleDb ⟨21, 1, .undefined⟩).1
        = { requests := [{ sampleRequest with status := "Rejected",
                                              reason := some "Not specified" }]
            stock := [sampleStock]
            facilities := [] } := by
  decide

/-- C15, amended. The outcome of `acceptBloodRequest` and of `rejectBloodRequest`
does not depend on the authenticated caller: a call by any facility `c` answers as,
and leaves the store as, the same call by any other facility `c1`, the lab the
request is addressed to included. -/
theorem caller_not_consulted (f : Faults) (db : Db) (c c1 requestId : ObjectId)
    (reason : JVal) :
    acceptBloodRequestOf f db ⟨c, requestId, reason⟩
        = acceptBloodRequestOf f db ⟨c1, requestId, reason⟩
      ∧ rejectBloodRequestOf f db ⟨c, requestId, reason⟩
        = rejectBloodRequestOf f db ⟨c1, requestId, reason⟩ :=
  ⟨rfl, rfl⟩

/-! ## Status changes -/

/-- The two ways a call of `rejectBloodRequest` can end. -/
theorem reject_cases (f : Faults) (db : Db) (requestId : ObjectId) (reason : JVal) :
    ((rejectBloodRequest f db requestId reason).1 = db
        ∧ (rejectBloodRequest f db requestId reason).2.status ≠ 200)
      ∨ (∃ r text, findById db.requests requestId = some r
          ∧ castString (reason.or (.str "Not specified")) = some text
          ∧ f.saveRequest = false
          ∧ (rejectBloodRequest f db requestId reason).1
            = { db with
                requests := saveRequest db.requests { r with status := "Rejected", reason := some text } }
          ∧ (rejectBloodRequest f db requestId reason).2.status = 200) := by
  unfold rejectBloodRequest
  by_cases h1 : f.findById = true
  · left; simp [h1]
  simp only [h1, if_false]
  cases hr : findById db.requests requestId with
  | none => left; simp
  | some r =>
    cases hc : castString (reason.or (.str "Not specified")) with
    | none => left; simp
    | some text =>
      by_cases h2 : f.saveRequest = true
      · left; simp [h2]
      · right
        refine ⟨r, text, rfl, rfl, by simp [h2], ?_, ?_⟩ <;> simp [h2]

/-- C17, as stated, fails: the sample request, once Accepted, is made Rejected by a
later `rejectBloodRequest`, and then Accepted again by a later `acceptBloodRequest`. -/
theorem terminal_status_overwritten :
    (findById (run sampleCasts sampleDb [.accept noFaults 1]).requests 1).map
        (fun r => r.status) = some "Accepted"
      ∧ (findById (run sampleCasts sampleDb
          [.accept noFaults 1, .reject noFaults 1 .undefined]).requests 1).map
        (fun r => r.status) = some "Rejected"
      ∧ (findById (run sampleCasts sampleDb
          [.accept noFaults 1, .reject noFaults 1 .undefined, .accept noFaults 1]).requests 1).map
        (fun r => r.status) = some "Accepted" := by
  decide

/-- C17, amended. For an existing request, whatever its status: when
`acceptBloodRequest` answers 200 the request read back is Accepted, when
`rejectBloodRequest` answers 200 it is Rejected, and when either call does not answer
200 the requests are as they were. -/
theorem status_after_call (f : Faults) (db : Db) (requestId : ObjectId) (r : BloodRequest)
    (reason : JVal) (hr : findById db.requests requestId = some r) :
    ((acceptBloodRequest f db requestId).2.status = 200 →
        findById (acceptBloodRequest f db requestId).1.requests requestId
          = some { r with status := "Accepted" })
      ∧ ((acceptBloodRequest f db requestId).2.status ≠ 200 →
        (acceptBloodRequest f db requestId).1.requests = db.requests)
      ∧ ((rejectBloodRequest f db requestId reason).2.status = 200 →
        ∃ text, findById (rejectBloodRequest f db requestId reason).1.requests requestId
          = some { r with status := "Rejected", reason := some text })
      ∧ ((rejectBloodRequest f db requestId reason).2.status ≠ 200 →
        (rejectBloodRequest f db requestId reason).1.requests = db.requests) := by
  refine ⟨?_, ?_, ?_, ?_⟩
  · intro hok
    rcases accept_cases f db requestId with ⟨_, h⟩ | ⟨r1, s, hr1, _, _, _, _, e, _⟩
        | ⟨_, _, _, _, _, _, _, _, h⟩
    · exact absurd hok h
    · have er : r1 = r := Option.some.inj (hr1.symm.trans hr)
      subst er
      rw [e]
      exact findById_saveRequest _ _ r1 _ hr rfl
    · rw [h] at hok
      exact absurd hok (by decide)
  · intro hno
    rcases accept_cases f db requestId with ⟨e, _⟩ | ⟨_, _, _, _, _, _, _, _, h⟩
        | ⟨_, _, _, _, _, _, _, e, _⟩
    · rw [e]
    · exact absurd h hno
    · rw [e]
  · intro hok
    rcases reject_cases f db requestId reason with ⟨_, h⟩ | ⟨r1, text, hr1, _, _, e, _⟩
    · exact absurd hok h
    · have er : r1 = r := Option.some.inj (hr1.symm.trans hr)
      subst er
      refine ⟨text, ?_⟩
      rw [e]
      exact findById_saveRequest _ _ r1 _ hr rfl
  · intro hno
    rcases reject_cases f db requestId reason with ⟨e, _⟩ | ⟨_, _, _, _, _, _, h⟩
    · rw [e]
    · exact absurd h hno

/-- C17, amended, on the sample store. -/
theorem status_after_call_witness :
    ((acceptBloodRequest noFaults sampleDb 1).2.status = 200 →
        findById (acceptBloodRequest noFaults sampleDb 1).1.requests 1
          = some { sampleRequest with status := "Accepted" })
      ∧ ((acceptBloodRequest noFaults sampleDb 1).2.status ≠ 200 →
        (acceptBloodRequest noFaults sampleDb 1).1.requests = sampleDb.requests)
      ∧ ((rejectBloodRequest noFaults sampleDb 1 .undefined).2.status = 200 →
        ∃ text, findById (rejectBloodRequest noFaults sampleDb 1 .undefined).1.requests 1
          = some { sampleRequest with status := "Rejected", reason := some text })
      ∧ ((rejectBloodRequest noFaults sampleDb 1 .undefined).2.status ≠ 200 →
        (rejectBloodRequest noFaults sampleDb 1 .undefined).1.requests = sampleDb.requests) :=
  status_after_call noFaults sampleDb 1 sampleRequest .undefined (by decide)

/-! ## Invalid submissions -/

/-- C18, as stated, fails: a submission with -1 units, and one with the blood group
"X", is answered with status 500, not 400. -/
theorem send_invalid_answers_500 :
    (sendBloodRequest sampleCasts noFaults sampleDb 10 ⟨.str "lab20", .str "O-", .num (-1)⟩ 5).2
        = ⟨500, .message "Failed to send request"⟩
      ∧ (sendBloodRequest sampleCasts noFaults sampleDb 10 ⟨.str "lab20", .str "X", .num 2⟩ 5).2
        = ⟨500, .message "Failed to send request"⟩ := by
  decide

/-- C18, amended. When all three fields are present and truthy but the blood group is
not one of the eight codes or the number of units is below 1, `sendBloodRequest`
answers 500 "Failed to send request" and the store is as it was. -/
theorem send_invalid (C : Casts) (f : Faults) (db : Db) (hospitalId : ObjectId) (lab : JVal)
    (g : String) (n : Int) (now : Nat)
    (hlab : lab.truthy = true) (hg : g ≠ "") (hn : n ≠ 0)
    (hbad : g ∉ bloodGroups ∨ n < 1) :
    sendBloodRequest C f db hospitalId ⟨lab, .str g, .num n⟩ now
      = (db, ⟨500, .message "Failed to send request"⟩) := by
  have hc : create C db.requests now hospitalId lab (.str g) (.num n) = none := by
    unfold create
    cases castObjectId C lab with
    | none => rfl
    | some l =>
      have : ¬ (g ∈ bloodGroups ∧ 1 ≤ n) := by
        rintro ⟨h1, h2⟩
        rcases hbad with h | h
        · exact h h1
        · omega
      simp [castString, castNumber, this]
  have h1 : (JVal.str g).truthy = true := by simp [JVal.truthy, hg]
  have h2 : (JVal.num n).truthy = true := by simp [JVal.truthy, hn]
  simp only [sendBloodRequest, hlab, h1, h2, hc, Bool.not_true, Bool.or_self,
    Bool.false_eq_true, if_false]
  split <;> rfl

/-- C18, amended, for -1 units. -/
theorem send_invalid_witness :
    sendBloodRequest sampleCasts noFaults sampleDb 10 ⟨.str "lab20", .str "O-", .num (-1)⟩ 5
      = (sampleDb, ⟨500, .message "Failed to send request"⟩) :=
  send_invalid sampleCasts noFaults sampleDb 10 (.str "lab20") "O-" (-1) 5 (by decide)
    (by decide) (by decide) (Or.inr (by decide))

/-! ## Stored requests stay valid -/

theorem mem_saveRequest {rs : List BloodRequest} {r d : BloodRequest}
    (h : d ∈ saveRequest rs r) : d = r ∨ d ∈ rs := by
  simp only [saveRequest, List.mem_map] at h
  obtain ⟨a, ha, rfl⟩ := h
  by_cases e : a._id = r._id
  · left; simp [e]
  · right; simpa [e] using ha

theorem create_some {C : Casts} {rs rs1 : List BloodRequest} {now : Nat} {h : ObjectId}
    {lab group units : JVal} {req : BloodRequest}
    (hc : create C rs now h lab group units = some (rs1, req)) :
    rs1 = rs ++ [req] ∧ ValidRequest req ∧ req._id = freshId rs ∧ req.status = "Pending" := by
  unfold create at hc
  split at hc
  · split at hc
    · next hv =>
      simp only [Option.some.injEq, Prod.mk.injEq] at hc
      obtain ⟨h1, h2⟩ := hc
      subst h2
      exact ⟨h1.symm, ⟨hv.2, hv.1, by show "Pending" ∈ statuses; decide⟩, rfl, rfl⟩
    · exact absurd hc (by simp)
  · exact absurd hc (by simp)

/-- What a call of `sendBloodRequest` does to the requests: nothing, or one valid
Pending request with a new id is added at the end. -/
theorem send_requests (C : Casts) (f : Faults) (db : Db) (h : ObjectId) (body : SendBody)
    (now : Nat) :
    (sendBloodRequest C f db h body now).1.requests = db.requests
      ∨ ∃ req, (sendBloodRequest C f db h body now).1.requests = db.requests ++ [req]
          ∧ ValidRequest req ∧ req._id = freshId db.requests ∧ req.status = "Pending" := by
  unfold sendBloodRequest
  split
  · left; rfl
  · split
    · left; rfl
    · split
      · left; rfl
      · next rs1 req hc =>
        right
        obtain ⟨h1, h2, h3, h4⟩ := create_some hc
        exact ⟨req, h1, h2, h3, h4⟩

theorem step_valid (C : Casts) (db : Db) (op : Op)
    (h : ∀ r ∈ db.requests, ValidRequest r) :
    ∀ r ∈ (step C db op).1.requests, ValidRequest r := by
  cases op with
  | submit f hid body now =>
    intro r hr
    simp only [step] at hr
    rcases send_requests C f db hid body now with e | ⟨req, e, hv, _, _⟩
    · rw [e] at hr; exact h r hr
    · rw [e] at hr
      rcases List.mem_append.mp hr with hr | hr
      · exact h r hr
      · rw [List.mem_singleton.mp hr]; exact hv
  | labList f c => simpa only [step, labList_db] using h
  | hospitalList f c => simpa only [step, hospitalList_db] using h
  | accept f rid =>
    intro d hd
    simp only [step] at hd
    rcases accept_cases f db rid with ⟨e, _⟩ | ⟨r, s, hr, _, _, _, _, e, _⟩
        | ⟨_, _, _, _, _, _, _, e, _⟩
    · rw [e] at hd; exact h d hd
    · rw [e] at hd
      rcases mem_saveRequest hd with rfl | hd
      · obtain ⟨h1, h2, _⟩ := h r (findById_mem hr)
        exact ⟨h1, h2, by show "Accepted" ∈ statuses; decide⟩
      · exact h d hd
    · rw [e] at hd; exact h d hd
  | reject f rid reason =>
    intro d hd
    simp only [step] at hd
    rcases reject_cases f db rid reason with ⟨e, _⟩ | ⟨r, text, hr, _, _, e, _⟩
    · rw [e] at hd; exact h d hd
    · rw [e] at hd
      rcases mem_saveRequest hd with rfl | hd
      · obtain ⟨h1, h2, _⟩ := h r (findById_mem hr)
        exact ⟨h1, h2, by show "Rejected" ∈ statuses; decide⟩
      · exact h d hd

theorem run_valid_from (C : Casts) (db : Db) (ops : List Op)
    (h : ∀ r ∈ db.requests, ValidRequest r) :
    ∀ r ∈ (run C db ops).requests, ValidRequest r := by
  induction ops generalizing db with
  | nil => exact h
  | cons op t ih => exact ih _ (step_valid C db op h)

/-- C19. From a store with no requests, after every finite sequence of calls
(submit, accept, reject, and the listings, with any storage faults) every stored
request has at least 1 unit, a blood group among the eight codes and a status among
Pending, Accepted, Rejected, Completed. -/
theorem run_valid (C : Casts) (db : Db) (ops : List Op) (h : db.requests = []) :
    ∀ r ∈ (run C db ops).requests,
      1 ≤ r.units ∧ r.bloodGroup ∈ ["A+", "A-", "B+", "B-", "AB+", "AB-", "O+", "O-"]
        ∧ r.status ∈ ["Pending", "Accepted", "Rejected", "Completed"] :=
  run_valid_from C db ops (by simp [h])

/-- C19, for a submission followed by an acceptance and a rejection: the one stored
request, now Rejected, is valid. -/
theorem run_valid_witness :
    freshDb.requests = []
      ∧ (1 ≤ ({ sampleRequest with status := "Rejected", reason := some "Not specified",
                                   createdAt := 5 } : BloodRequest).units
        ∧ ({ sampleRequest with status := "Rejected", reason := some "Not specified",
                                createdAt := 5 } : BloodRequest).bloodGroup
            ∈ ["A+", "A-", "B+", "B-", "AB+", "AB-", "O+", "O-"]
        ∧ ({ sampleRequest with status := "Rejected", reason := some "Not specified",
                                createdAt := 5 } : BloodRequest).status
            ∈ ["Pending", "Accepted", "Rejected", "Completed"]) :=
  ⟨rfl, run_valid sampleCasts freshDb
    [sampleSubmit 5, .accept noFaults 1, .reject noFaults 1 .undefined] rfl
    { sampleRequest with status := "Rejected", reason := some "Not specified", createdAt := 5 }
    (by decide)⟩

/-! ## Reserved stock and accepted requests -/

/-- C16, as stated, fails: after one submission of 2 units, accepting it twice lowers
the stock by 4 while the Accepted units are 2; accepting it and then rejecting it
lowers the stock by 2 while the Accepted units are 0; and accepting it with a request
save that throws lowers the stock by 2 while the Accepted units are 0. -/
theorem reserved_differs_from_accepted :
    (quantityOf freshDb.stock 20 "O-"
        - quantityOf (run sampleCasts freshDb
            [sampleSubmit 5, .accept noFaults 1, .accept noFaults 1]).stock 20 "O-" = 4
      ∧ acceptedUnits (run sampleCasts freshDb
            [sampleSubmit 5, .accept noFaults 1, .accept noFaults 1]).requests 20 "O-" = 2)
      ∧ (quantityOf freshDb.stock 20 "O-"
        - quantityOf (run sampleCasts freshDb
            [sampleSubmit 5, .accept noFaults 1, .reject noFaults 1 .undefined]).stock 20 "O-" = 2
      ∧ acceptedUnits (run sampleCasts freshDb
            [sampleSubmit 5, .accept noFaults 1, .reject noFaults 1 .undefined]).requests
          20 "O-" = 0)
      ∧ (quantityOf freshDb.stock 20 "O-"
        - quantityOf (run sampleCasts freshDb
            [sampleSubmit 5, .accept requestSaveFails 1]).stock 20 "O-" = 2
      ∧ acceptedUnits (run sampleCasts freshDb
            [sampleSubmit 5, .accept requestSaveFails 1]).requests 20 "O-" = 0) := by
  decide

theorem acceptedUnits_eq_sum (rs : List BloodRequest) (lab : ObjectId) (group : String) :
    acceptedUnits rs lab group = (rs.map (acceptedWeight lab group)).sum := by
  induction rs with
  | nil => rfl
  | cons a t ih =>
    unfold acceptedUnits at ih ⊢
    by_cases h : a.bloodLab = lab ∧ a.bloodGroup = group ∧ a.status = "Accepted"
    · have hb : (a.bloodLab == lab && a.bloodGroup == group && a.status == "Accepted") = true := by
        simp [h.1, h.2.1, h.2.2]
      have hw : acceptedWeight lab group a = a.units := if_pos h
      simp only [List.filter_cons, hb, if_true, List.map_cons, List.sum_cons, ih, hw]
    · have hb : (a.bloodLab == lab && a.bloodGroup == group && a.status == "Accepted") = false := by
        rw [Bool.eq_false_iff]
        intro hc
        simp only [Bool.and_eq_true, beq_iff_eq] at hc
        exact h ⟨hc.1.1, hc.1.2, hc.2⟩
      have hw : acceptedWeight lab group a = 0 := if_neg h
      simp only [List.filter_cons, hb, List.map_cons, List.sum_cons, ih, hw, if_false,
        zero_add, Bool.false_eq_true]

theorem sum_map_replace (w : BloodRequest → Int) (rs : List BloodRequest)
    (r r1 : BloodRequest) (hnd : rs.Nodup) (hr : r ∈ rs) :
    ((rs.map (fun d => if d = r then r1 else d)).map w).sum
      = (rs.map w).sum - w r + w r1 := by
  induction rs with
  | nil => simp at hr
  | cons a t ih =>
    obtain ⟨hat, ht⟩ := List.nodup_cons.mp hnd
    by_cases e : a = r
    · subst e
      have hid : t.map (fun d => if d = a then r1 else d) = t := by
        conv_rhs => rw [← List.map_id t]
        apply List.map_congr_left
        intro d hd
        have : d ≠ a := fun h => hat (h ▸ hd)
        simp [this]
      simp only [List.map_cons, if_true, List.sum_cons, hid]
      omega
    · have hr1 : r ∈ t := by
        rcases List.mem_cons.mp hr with h | h
        · exact absurd h.symm e
        · exact h
      simp only [List.map_cons, e, if_false, List.sum_cons, ih ht hr1]
      omega

theorem saveRequest_ids (rs : List BloodRequest) (r : BloodRequest) :
    (saveRequest rs r).map (fun d => d._id) = rs.map (fun d => d._id) := by
  simp only [saveRequest, List.map_map]
  apply List.map_congr_left
  intro d _
  by_cases e : d._id = r._id
  · simp [e]
  · simp [e]

theorem saveStock_ids (st : List Blood) (s : Blood) :
    (saveStock st s).map (fun b => b._id) = st.map (fun b => b._id) := by
  simp only [saveStock, List.map_map]
  apply List.map_congr_left
  intro b _
  by_cases e : b._id = s._id
  · simp [e]
  · simp [e]

theorem find?_map_replace (p : Blood → Bool) (st : List Blood) (s s1 : Blood)
    (hs : p s = false) (hs1 : p s1 = false) :
    (st.map (fun b => if b = s then s1 else b)).find? p = st.find? p := by
  induction st with
  | nil => rfl
  | cons a t ih =>
    by_cases e : a = s
    · subst e
      simp only [List.map_cons, if_true, List.find?_cons, hs, hs1, ih]
    · simp only [List.map_cons, e, if_false, List.find?_cons, ih]

theorem acceptedWeight_of_ne (lab : ObjectId) (group : String) (r : BloodRequest)
    (h : r.status ≠ "Accepted") : acceptedWeight lab group r = 0 :=
  if_neg (fun hc => h hc.2.2)

theorem acceptedUnits_saveRequest (rs : List BloodRequest) (r r1 : BloodRequest)
    (lab : ObjectId) (group : String) (hnd : (rs.map (fun d => d._id)).Nodup) (hr : r ∈ rs)
    (hid : r1._id = r._id) :
    acceptedUnits (saveRequest rs r1) lab group
      = acceptedUnits rs lab group - acceptedWeight lab group r
        + acceptedWeight lab group r1 := by
  rw [acceptedUnits_eq_sum, acceptedUnits_eq_sum, saveRequest_eq_map rs r r1 hnd hr hid]
  exact sum_map_replace _ rs r r1 hnd.of_map hr

theorem acceptedUnits_append_pending (rs : List BloodRequest) (req : BloodRequest)
    (lab : ObjectId) (group : String) (h : req.status = "Pending") :
    acceptedUnits (rs ++ [req]) lab group = acceptedUnits rs lab group := by
  have hw : acceptedWeight lab group req = 0 :=
    acceptedWeight_of_ne lab group req (by rw [h]; decide)
  rw [acceptedUnits_eq_sum, acceptedUnits_eq_sum]
  simp [hw]

theorem quantityOf_saveStock_same (st : List Blood) (lab : ObjectId) (group : String)
    (s s1 : Blood) (h : findOne st lab group = some s) (hid : s1._id = s._id)
    (hlab : s1.bloodLab = s.bloodLab) (hgroup : s1.bloodGroup = s.bloodGroup) :
    quantityOf (saveStock st s1) lab group = s1.quantity := by
  unfold quantityOf
  rw [findOne_saveStock st lab group s s1 h hid hlab hgroup]

theorem quantityOf_saveStock_other (st : List Blood) (lab : ObjectId) (group : String)
    (s s1 : Blood) (hst : (st.map (fun b => b._id)).Nodup) (hs : s ∈ st)
    (hid : s1._id = s._id) (hlab : s1.bloodLab = s.bloodLab)
    (hgroup : s1.bloodGroup = s.bloodGroup)
    (hk : ¬ (s.bloodLab = lab ∧ s.bloodGroup = group)) :
    quantityOf (saveStock st s1) lab group = quantityOf st lab group := by
  have hp : (s.bloodLab == lab && s.bloodGroup == group) = false := by
    rw [Bool.eq_false_iff]
    intro hc
    simp only [Bool.and_eq_true, beq_iff_eq] at hc
    exact hk hc
  have hp1 : (s1.bloodLab == lab && s1.bloodGroup == group) = false := by
    rw [hlab, hgroup]; exact hp
  unfold quantityOf findOne
  rw [saveStock_eq_map st s s1 hst hs hid,
    find?_map_replace (fun b => b.bloodLab == lab && b.bloodGroup == group) st s s1 hp hp1]

theorem ne_accepted_of_notAccepted {db : Db} {requestId : ObjectId} {r : BloodRequest}
    (h : notAccepted db requestId = true) (hr : findById db.requests requestId = some r) :
    r.status ≠ "Accepted" := by
  unfold notAccepted at h
  rw [hr] at h
  simpa using h

/-- One orderly call keeps the document ids distinct and lowers each stock quantity by
exactly what it adds to the Accepted units. -/
theorem step_reserved (C : Casts) (db : Db) (op : Op)
    (hreq : (db.requests.map (fun d => d._id)).Nodup)
    (hst : (db.stock.map (fun b => b._id)).Nodup) (ho : orderly db op = true) :
    ((step C db op).1.requests.map (fun d => d._id)).Nodup
      ∧ ((step C db op).1.stock.map (fun b => b._id)).Nodup
      ∧ ∀ lab group, quantityOf db.stock lab group
          - quantityOf (step C db op).1.stock lab group
        = acceptedUnits (step C db op).1.requests lab group
          - acceptedUnits db.requests lab group := by
  cases op with
  | labList f c => simp only [step, labList_db]; exact ⟨hreq, hst, fun _ _ => by omega⟩
  | hospitalList f c =>
    simp only [step, hospitalList_db]; exact ⟨hreq, hst, fun _ _ => by omega⟩
  | submit f hid body now =>
    simp only [step, send_stock]
    rcases send_requests C f db hid body now with e | ⟨req, e, _, hfresh, hpend⟩
    · rw [e]; exact ⟨hreq, hst, fun _ _ => by omega⟩
    · rw [e]
      refine ⟨?_, hst, fun lab group => ?_⟩
      · rw [List.map_append, List.nodup_append]
        refine ⟨hreq, List.nodup_singleton _, ?_⟩
        intro a ha ha1
        obtain ⟨d, hd, rfl⟩ := List.mem_map.mp ha
        simp only [List.map_cons, List.map_nil, List.mem_singleton] at ha1
        exact absurd (ha1.trans hfresh) (Nat.ne_of_lt (lt_freshId _ d hd))
      · rw [acceptedUnits_append_pending _ _ _ _ hpend]; omega
  | accept f rid =>
    simp only [orderly, Bool.and_eq_true, Bool.not_eq_true'] at ho
    obtain ⟨hf, hp⟩ := ho
    simp only [step]
    rcases accept_cases f db rid with ⟨e, _⟩ | ⟨r, s, hr, hs, _, _, _, e, _⟩
        | ⟨_, _, _, _, _, _, _, _, h⟩
    · rw [e]; exact ⟨hreq, hst, fun _ _ => by omega⟩
    · have hna : r.status ≠ "Accepted" := ne_accepted_of_notAccepted hp hr
      obtain ⟨hl, hg⟩ := findOne_key hs
      rw [e]
      refine ⟨by rw [saveRequest_ids]; exact hreq, by rw [saveStock_ids]; exact hst,
        fun lab group => ?_⟩
      show quantityOf db.stock lab group
          - quantityOf (saveStock db.stock { s with quantity := s.quantity - r.units }) lab group
        = acceptedUnits (saveRequest db.requests { r with status := "Accepted" }) lab group
          - acceptedUnits db.requests lab group
      rw [acceptedUnits_saveRequest db.requests r { r with status := "Accepted" } lab group
          hreq (findById_mem hr) rfl,
        acceptedWeight_of_ne lab group r hna]
      by_cases hk : r.bloodLab = lab ∧ r.bloodGroup = group
      · obtain ⟨rfl, rfl⟩ := hk
        have hw : acceptedWeight r.bloodLab r.bloodGroup { r with status := "Accepted" }
            = r.units := if_pos ⟨rfl, rfl, rfl⟩
        have hq0 : quantityOf db.stock r.bloodLab r.bloodGroup = s.quantity := by
          unfold quantityOf; rw [hs]
        rw [hw, hq0, quantityOf_saveStock_same db.stock _ _ s
          { s with quantity := s.quantity - r.units } hs rfl rfl rfl]
        show s.quantity - (s.quantity - r.units) = _
        omega
      · have hw : acceptedWeight lab group { r with status := "Accepted" } = 0 :=
          if_neg (fun hc => hk ⟨hc.1, hc.2.1⟩)
        have hk1 : ¬ (s.bloodLab = lab ∧ s.bloodGroup = group) := by
          rw [hl, hg]; exact hk
        rw [hw, quantityOf_saveStock_other db.stock lab group s
          { s with quantity := s.quantity - r.units } hst (findOne_mem hs) rfl rfl rfl hk1]
        omega
    · have e : (acceptBloodRequest f db rid).1 = db := by
        by_contra hne
        have hcut : cutShort f db rid = true := by
          unfold cutShort
          rw [decide_eq_true_eq]
          exact ⟨by rw [h]; decide, hne⟩
        rw [hcut] at hf
        exact absurd hf (by decide)
      rw [e]; exact ⟨hreq, hst, fun _ _ => by omega⟩
  | reject f rid reason =>
    simp only [orderly] at ho
    simp only [step, reject_stock]
    rcases reject_cases f db rid reason with ⟨e, _⟩ | ⟨r, text, hr, _, _, e, _⟩
    · rw [e]; exact ⟨hreq, hst, fun _ _ => by omega⟩
    · have hna : r.status ≠ "Accepted" := ne_accepted_of_notAccepted ho hr
      rw [e]
      refine ⟨by rw [saveRequest_ids]; exact hreq, hst, fun lab group => ?_⟩
      show quantityOf db.stock lab group - quantityOf db.stock lab group
        = acceptedUnits (saveRequest db.requests
            { r with status := "Rejected", reason := some text }) lab group
          - acceptedUnits db.requests lab group
      rw [acceptedUnits_saveRequest db.requests r
          { r with status := "Rejected", reason := some text } lab group
          hreq (findById_mem hr) rfl,
        acceptedWeight_of_ne lab group r hna,
        acceptedWeight_of_ne lab group _ (by show "Rejected" ≠ "Accepted"; decide)]
      omega

theorem run_reserved (C : Casts) (db : Db) (ops : List Op)
    (hreq : (db.requests.map (fun d => d._id)).Nodup)
    (hst : (db.stock.map (fun b => b._id)).Nodup) (ho : orderlyRun C db ops = true)
    (lab : ObjectId) (group : String) :
    quantityOf db.stock lab group - quantityOf (run C db ops).stock lab group
      = acceptedUnits (run C db ops).requests lab group
        - acceptedUnits db.requests lab group := by
  induction ops generalizing db with
  | nil => simp [run]
  | cons op rest ih =>
    simp only [orderlyRun, Bool.and_eq_true] at ho
    obtain ⟨h1, h2, h3⟩ := step_reserved C db op hreq hst ho.1
    have := ih (step C db op).1 h1 h2 ho.2
    have h4 := h3 lab group
    simp only [run, List.foldl_cons] at this ⊢
    omega

/-- C16, amended. From a store with no requests and with distinct stock record ids,
after every finite sequence of calls in which no accept and no reject is aimed at a
request that is Accepted and no accept is cut short by a request save that throws
after its stock save, for every lab and blood group the amount by which the stock
quantity has dropped equals the sum of the units of the requests for that pair whose
status is Accepted. -/
theorem reserved_eq_accepted (C : Casts) (db : Db) (ops : List Op) (lab : ObjectId)
    (group : String) (h0 : db.requests = [])
    (hst : (db.stock.map (fun b => b._id)).Nodup) (ho : orderlyRun C db ops = true) :
    quantityOf db.stock lab group - quantityOf (run C db ops).stock lab group
      = acceptedUnits (run C db ops).requests lab group := by
  have h := run_reserved C db ops (by simp [h0]) hst ho lab group
  have hz : acceptedUnits db.requests lab group = 0 := by simp [h0, acceptedUnits]
  omega

/-- C16, amended, for a request of 2 units that is rejected twice and then accepted,
and a second one that is rejected: the stock has dropped by 2 and the Accepted units
are 2. -/
theorem reserved_eq_accepted_witness :
    (quantityOf freshDb.stock 20 "O-"
        - quantityOf (run sampleCasts freshDb
            [sampleSubmit 5, .reject noFaults 1 .undefined, .reject noFaults 1 .undefined,
              .accept noFaults 1, sampleSubmit 6, .reject noFaults 2 .undefined]).stock 20 "O-"
      = acceptedUnits (run sampleCasts freshDb
            [sampleSubmit 5, .reject noFaults 1 .undefined, .reject noFaults 1 .undefined,
              .accept noFaults 1, sampleSubmit 6, .reject noFaults 2 .undefined]).requests
          20 "O-")
      ∧ acceptedUnits (run sampleCasts freshDb
            [sampleSubmit 5, .reject noFaults 1 .undefined, .reject noFaults 1 .undefined,
              .accept noFaults 1, sampleSubmit 6, .reject noFaults 2 .undefined]).requests
          20 "O-" = 2 :=
  ⟨reserved_eq_accepted sampleCasts freshDb _ 20 "O-" rfl (by decide) (by decide),
    by decide⟩

/-! ## Failures are reported -/

theorem send_reported (C : Casts) (f : Faults) (db : Db) (h : ObjectId) (body : SendBody)
    (now : Nat) :
    Reported (sendBloodRequest C f db h body now).2
      ∧ ((sendBloodRequest C f db h body now).2.status = 200 → f.create = false) := by
  unfold sendBloodRequest Reported
  split
  · simp
  · split
    · simp
    · next hf =>
      split
      · simp
      · simpa using hf

theorem labList_reported (f : Faults) (db : Db) (c : ObjectId) :
    Reported (getLabRequests f db c).2
      ∧ ((getLabRequests f db c).2.status = 200 → f.find = false) := by
  unfold getLabRequests Reported
  split
  · simp
  · next hf => simpa using hf

theorem hospitalList_reported (f : Faults) (db : Db) (c : ObjectId) :
    Reported (getHospitalRequests f db c).2
      ∧ ((getHospitalRequests f db c).2.status = 200 → f.find = false) := by
  unfold getHospitalRequests Reported
  split
  · simp
  · next hf => simpa using hf

theorem accept_reported (f : Faults) (db : Db) (requestId : ObjectId) :
    Reported (acceptBloodRequest f db requestId).2
      ∧ ((acceptBloodRequest f db requestId).2.status = 200 →
        f.findById = false ∧ f.findOne = false ∧ f.saveStock = false
          ∧ f.saveRequest = false) := by
  unfold acceptBloodRequest Reported
  split
  · simp
  · next h1 =>
    split
    · simp
    · split
      · simp
      · next h2 =>
        split
        · simp
        · split
          · simp
          · split
            · simp
            · next h3 =>
              split
              · simp
              · next h4 =>
                simp only [Bool.not_eq_true] at h1 h2 h3 h4
                simp [h1, h2, h3, h4]

theorem reject_reported (f : Faults) (db : Db) (requestId : ObjectId) (reason : JVal) :
    Reported (rejectBloodRequest f db requestId reason).2
      ∧ ((rejectBloodRequest f db requestId reason).2.status = 200 →
        f.findById = false ∧ f.saveRequest = false) := by
  unfold rejectBloodRequest Reported
  split
  · simp
  · next h1 =>
    split
    · simp
    · split
      · simp
      · split
        · simp
        · next h4 =>
          simp only [Bool.not_eq_true] at h1 h4
          simp [h1, h4]

theorem accept_not500 (f : Faults) (db : Db) (rid : ObjectId)
    (h : (acceptBloodRequest f db rid).2.status ≠ 500) :
    acceptBloodRequest f db rid = acceptBloodRequest noFaults db rid := by
  by_cases h1 : f.findById = true
  · exact absurd (by simp [acceptBloodRequest, h1]) h
  cases hr : findById db.requests rid with
  | none => simp [acceptBloodRequest, noFaults, h1, hr]
  | some r =>
    by_cases h2 : f.findOne = true
    · exact absurd (by simp [acceptBloodRequest, h1, hr, h2]) h
    cases hs : findOne db.stock r.bloodLab r.bloodGroup with
    | none => simp [acceptBloodRequest, noFaults, h1, hr, h2, hs]
    | some s =>
      by_cases hq : s.quantity < r.units
      · simp [acceptBloodRequest, noFaults, h1, hr, h2, hs, hq]
      by_cases h3 : f.saveStock = true
      · exact absurd (by simp [acceptBloodRequest, h1, hr, h2, hs, hq, h3]) h
      by_cases h4 : f.saveRequest = true
      · exact absurd (by simp [acceptBloodRequest, h1, hr, h2, hs, hq, h3, h4]) h
      simp [acceptBloodRequest, noFaults, h1, hr, h2, hs, hq, h3, h4]

theorem reject_not500 (f : Faults) (db : Db) (rid : ObjectId) (reason : JVal)
    (h : (rejectBloodRequest f db rid reason).2.status ≠ 500) :
    rejectBloodRequest f db rid reason = rejectBloodRequest noFaults db rid reason := by
  by_cases h1 : f.findById = true
  · exact absurd (by simp [rejectBloodRequest, h1]) h
  cases hr : findById db.requests rid with
  | none => simp [rejectBloodRequest, noFaults, h1, hr]
  | some r =>
    cases hc : castString (reason.or (.str "Not specified")) with
    | none => simp [rejectBloodRequest, noFaults, h1, hr, hc]
    | some text =>
      by_cases h4 : f.saveRequest = true
      · exact absurd (by simp [rejectBloodRequest, h1, hr, hc, h4]) h
      simp [rejectBloodRequest, noFaults, h1, hr, hc, h4]

theorem send_not500 (C : Casts) (f : Faults) (db : Db) (hid : ObjectId) (body : SendBody)
    (now : Nat) (h : (sendBloodRequest C f db hid body now).2.status ≠ 500) :
    sendBloodRequest C f db hid body now = sendBloodRequest C noFaults db hid body now := by
  unfold sendBloodRequest at h ⊢
  by_cases h0 : (!body.bloodLab.truthy || !body.bloodGroup.truthy || !body.units.truthy) = true
  · rw [if_pos h0, if_pos h0]
  · rw [if_neg h0] at h
    rw [if_neg h0, if_neg h0]
    by_cases h1 : f.create = true
    · rw [if_pos h1] at h
      exact absurd rfl h
    · rw [if_neg h1, if_neg (show ¬ noFaults.create = true by decide)]

theorem labList_not500 (f : Faults) (db : Db) (c : ObjectId)
    (h : (getLabRequests f db c).2.status ≠ 500) :
    getLabRequests f db c = getLabRequests noFaults db c := by
  by_cases h1 : f.find = true
  · exact absurd (by simp [getLabRequests, h1]) h
  simp [getLabRequests, noFaults, h1]

theorem hospitalList_not500 (f : Faults) (db : Db) (c : ObjectId)
    (h : (getHospitalRequests f db c).2.status ≠ 500) :
    getHospitalRequests f db c = getHospitalRequests noFaults db c := by
  by_cases h1 : f.find = true
  · exact absurd (by simp [getHospitalRequests, h1]) h
  simp [getHospitalRequests, noFaults, h1]

theorem step_not500 (C : Casts) (db : Db) (op : Op)
    (h : (step C db op).2.status ≠ 500) : step C db op = step C db op.clear := by
  cases op with
  | submit f hid body now => exact send_not500 C f db hid body now h
  | labList f c => exact labList_not500 f db c h
  | accept f rid => exact accept_not500 f db rid h
  | reject f rid reason => exact reject_not500 f db rid reason h
  | hospitalList f c => exact hospitalList_not500 f db c h

/-- Every call answers with a status among 200, 400, 404 and 500, with a message
that is not empty unless the status is 200; a 200 is only sent when none of the
storage calls the handler made threw; and a call answered with another status than
500 ran exactly as it does when storage works. -/
theorem step_reported (C : Casts) (db : Db) (op : Op) :
    (Reported (step C db op).2
        ∧ ((step C db op).2.status = 200 → ∀ b ∈ usedFaults op, b = false))
      ∧ ((step C db op).2.status ≠ 500 → step C db op = step C db op.clear) := by
  refine ⟨?_, step_not500 C db op⟩
  cases op with
  | submit f h body now =>
    obtain ⟨h1, h2⟩ := send_reported C f db h body now
    exact ⟨h1, fun hok b hb => by
      simp only [usedFaults, List.mem_singleton] at hb
      rw [hb]; exact h2 hok⟩
  | labList f c =>
    obtain ⟨h1, h2⟩ := labList_reported f db c
    exact ⟨h1, fun hok b hb => by
      simp only [usedFaults, List.mem_singleton] at hb
      rw [hb]; exact h2 hok⟩
  | hospitalList f c =>
    obtain ⟨h1, h2⟩ := hospitalList_reported f db c
    exact ⟨h1, fun hok b hb => by
      simp only [usedFaults, List.mem_singleton] at hb
      rw [hb]; exact h2 hok⟩
  | accept f rid =>
    obtain ⟨h1, h2⟩ := accept_reported f db rid
    refine ⟨h1, fun hok b hb => ?_⟩
    obtain ⟨a1, a2, a3, a4⟩ := h2 hok
    simp only [usedFaults, List.mem_cons, List.mem_singleton, List.mem_nil_iff, or_false] at hb
    rcases hb with rfl | rfl | rfl | rfl <;> assumption
  | reject f rid reason =>
    obtain ⟨h1, h2⟩ := reject_reported f db rid reason
    refine ⟨h1, fun hok b hb => ?_⟩
    obtain ⟨a1, a4⟩ := h2 hok
    simp only [usedFaults, List.mem_cons, List.mem_singleton, List.mem_nil_iff, or_false] at hb
    rcases hb with rfl | rfl <;> assumption

/-! ## Repeated and successive acceptance -/

theorem accept_ok (db : Db) (requestId : ObjectId) (r : BloodRequest) (s : Blood)
    (hr : findById db.requests requestId = some r)
    (hs : findOne db.stock r.bloodLab r.bloodGroup = some s) (hq : r.units ≤ s.quantity) :
    acceptBloodRequest noFaults db requestId
      = ({ requests := saveRequest db.requests { r with status := "Accepted" }
           stock := saveStock db.stock { s with quantity := s.quantity - r.units }
           facilities := db.facilities },
          ⟨200, .withRequest "Request Accepted" { r with status := "Accepted" }⟩) := by
  have hq1 : ¬ s.quantity < r.units := by omega
  simp [acceptBloodRequest, noFaults, hr, hs, hq1]

theorem accept_refused (db : Db) (requestId : ObjectId) (r : BloodRequest) (s : Blood)
    (hr : findById db.requests requestId = some r)
    (hs : findOne db.stock r.bloodLab r.bloodGroup = some s) (hq : s.quantity < r.units) :
    acceptBloodRequest noFaults db requestId
      = (db, ⟨400, .message "Not enough stock available"⟩) := by
  simp [acceptBloodRequest, noFaults, hr, hs, hq]

theorem findById_saveRequest_other (rs : List BloodRequest) (id : ObjectId)
    (r1 : BloodRequest) (h : id ≠ r1._id) :
    findById (saveRequest rs r1) id = findById rs id := by
  induction rs with
  | nil => rfl
  | cons d t ih =>
    simp only [findById, saveRequest, List.map_cons, List.find?_cons] at ih ⊢
    by_cases e : d._id = r1._id
    · have h1 : (r1._id == id) = false := by simpa using Ne.symm h
      have h2 : (d._id == id) = false := by rw [e]; exact h1
      simp only [e, if_true, h1, h2, ih]
    · simp only [e, if_false, ih]

theorem with_accepted_eq (r : BloodRequest) (h : r.status = "Accepted") :
    ({ r with status := "Accepted" } : BloodRequest) = r := by
  cases r
  simp only [BloodRequest.mk.injEq, true_and, and_true] at h ⊢
  exact h.symm

/-- C22. For a request that is already Accepted, as long as the stock record of its
lab and blood group holds enough, every further `acceptBloodRequest` answers 200 and
lowers the quantity by the units once more: `k` calls in a row, the stock holding at
least `k` times the units, all answer 200 and leave the quantity lower by `k` times
the units, the request still Accepted. -/
theorem reaccept_decrements (C : Casts) (db : Db) (requestId : ObjectId) (r : BloodRequest)
    (s : Blood) (k : Nat) (hr : findById db.requests requestId = some r)
    (hacc : r.status = "Accepted")
    (hs : findOne db.stock r.bloodLab r.bloodGroup = some s)
    (hu : 0 ≤ r.units) (hk : (k : Int) * r.units ≤ s.quantity) :
    (runResponses C db (List.replicate k (.accept noFaults requestId))).map
        (fun res => res.status) = List.replicate k 200
      ∧ quantityOf (run C db (List.replicate k (.accept noFaults requestId))).stock
          r.bloodLab r.bloodGroup = s.quantity - (k : Int) * r.units
      ∧ findById (run C db (List.replicate k (.accept noFaults requestId))).requests requestId
          = some r := by
  induction k generalizing db s with
  | zero =>
    refine ⟨rfl, ?_, hr⟩
    simp [run, quantityOf, hs]
  | succ k ih =>
    have h1 : ((k + 1 : Nat) : Int) * r.units = k * r.units + r.units := by
      push_cast; ring
    have h2 : 0 ≤ (k : Int) * r.units := mul_nonneg (by omega) hu
    have hq : r.units ≤ s.quantity := by linarith
    have hstep := accept_ok db requestId r s hr hs hq
    rw [with_accepted_eq r hacc] at hstep
    have hr1 : findById (saveRequest db.requests r) requestId = some r :=
      findById_saveRequest _ _ r r hr rfl
    have hs1 : findOne (saveStock db.stock { s with quantity := s.quantity - r.units })
        r.bloodLab r.bloodGroup = some { s with quantity := s.quantity - r.units } :=
      findOne_saveStock _ _ _ s _ hs rfl rfl rfl
    obtain ⟨i1, i2, i3⟩ := ih
      { requests := saveRequest db.requests r
        stock := saveStock db.stock { s with quantity := s.quantity - r.units }
        facilities := db.facilities }
      { s with quantity := s.quantity - r.units } hr1 hs1
      (by show (k : Int) * r.units ≤ s.quantity - r.units; linarith)
    simp only [List.replicate_succ, runResponses, run, List.foldl_cons, step, hstep,
      List.map_cons] at i1 i2 i3 ⊢
    refine ⟨by rw [i1], ?_, i3⟩
    rw [i2, h1]
    show s.quantity - r.units - (k : Int) * r.units = _
    ring

/-- C22, on a store whose request is already Accepted with 5 units in stock: two more
acceptances of 2 units answer 200 and leave 1 unit. -/
theorem reaccept_decrements_witness :
    (runResponses sampleCasts acceptedDb (List.replicate 2 (.accept noFaults 1))).map
        (fun res => res.status) = List.replicate 2 200
      ∧ quantityOf (run sampleCasts acceptedDb (List.replicate 2 (.accept noFaults 1))).stock
          20 "O-" = 5 - (2 : Nat) * 2
      ∧ findById (run sampleCasts acceptedDb (List.replicate 2 (.accept noFaults 1))).requests 1
          = some { sampleRequest with status := "Accepted" } :=
  reaccept_decrements sampleCasts acceptedDb 1 { sampleRequest with status := "Accepted" }
    sampleStock 2 (by decide) (by decide) (by decide) (by decide) (by decide)

/-! ## What the calls write to status and reason -/

theorem create_reason {C : Casts} {rs rs1 : List BloodRequest} {now : Nat} {h : ObjectId}
    {lab group units : JVal} {req : BloodRequest}
    (hc : create C rs now h lab group units = some (rs1, req)) : req.reason = none := by
  unfold create at hc
  split at hc
  · split at hc
    · simp only [Option.some.injEq, Prod.mk.injEq] at hc
      rw [← hc.2]
    · exact absurd hc (by simp)
  · exact absurd hc (by simp)

/-- What a call of `sendBloodRequest` adds, if anything: one Pending request without
a reason, at the end. -/
theorem send_requests_new (C : Casts) (f : Faults) (db : Db) (h : ObjectId) (body : SendBody)
    (now : Nat) :
    (sendBloodRequest C f db h body now).1.requests = db.requests
      ∨ ∃ req, (sendBloodRequest C f db h body now).1.requests = db.requests ++ [req]
          ∧ req.status = "Pending" ∧ req.reason = none := by
  unfold sendBloodRequest
  split
  · left; rfl
  · split
    · left; rfl
    · split
      · left; rfl
      · next rs1 req hc =>
        right
        obtain ⟨h1, _, _, h4⟩ := create_some hc
        exact ⟨req, h1, h4, create_reason hc⟩

/-- A property of the stored requests that holds of a new Pending request, and that
the writes of accept and of reject keep, holds after every call. -/
theorem step_requests_inv (P : BloodRequest → Prop) (C : Casts) (db : Db) (op : Op)
    (hnew : ∀ req, req.status = "Pending" → req.reason = none → P req)
    (hacc : ∀ f rid r, op = .accept f rid → findById db.requests rid = some r → P r →
      P { r with status := "Accepted" })
    (hrej : ∀ r text, P r → P { r with status := "Rejected", reason := some text })
    (h : ∀ r ∈ db.requests, P r) :
    ∀ r ∈ (step C db op).1.requests, P r := by
  cases op with
  | submit f hid body now =>
    intro r hr
    simp only [step] at hr
    rcases send_requests_new C f db hid body now with e | ⟨req, e, hp, hn⟩
    · rw [e] at hr; exact h r hr
    · rw [e] at hr
      rcases List.mem_append.mp hr with hr | hr
      · exact h r hr
      · rw [List.mem_singleton.mp hr]; exact hnew req hp hn
  | labList f c => simpa only [step, labList_db] using h
  | hospitalList f c => simpa only [step, hospitalList_db] using h
  | accept f rid =>
    intro d hd
    simp only [step] at hd
    rcases accept_cases f db rid with ⟨e, _⟩ | ⟨r, s, hr, _, _, _, _, e, _⟩
        | ⟨_, _, _, _, _, _, _, e, _⟩
    · rw [e] at hd; exact h d hd
    · rw [e] at hd
      rcases mem_saveRequest hd with rfl | hd
      · exact hacc f rid r rfl hr (h r (findById_mem hr))
      · exact h d hd
    · rw [e] at hd; exact h d hd
  | reject f rid reason =>
    intro d hd
    simp only [step] at hd
    rcases reject_cases f db rid reason with ⟨e, _⟩ | ⟨r, text, hr, _, _, e, _⟩
    · rw [e] at hd; exact h d hd
    · rw [e] at hd
      rcases mem_saveRequest hd with rfl | hd
      · exact hrej r text (h r (findById_mem hr))
      · exact h d hd

theorem run_not_completed (C : Casts) (db : Db) (ops : List Op)
    (h : ∀ d ∈ db.requests, d.status ≠ "Completed") :
    ∀ d ∈ (run C db ops).requests, d.status ≠ "Completed" := by
  induction ops generalizing db with
  | nil => exact h
  | cons op t ih =>
    refine ih _ (step_requests_inv (fun d => d.status ≠ "Completed") C db op ?_ ?_ ?_ h)
    · intro req hp _
      show req.status ≠ "Completed"
      rw [hp]; decide
    · intro _ _ r _ _ _
      show "Accepted" ≠ "Completed"
      decide
    · intro r _ _
      show "Rejected" ≠ "Completed"
      decide

/-- A request that is not Pending is, after one more call, still stored and still
not Pending. -/
theorem step_left_pending (C : Casts) (db : Db) (op : Op) (rid : ObjectId) (r : BloodRequest)
    (hr : findById db.requests rid = some r) (hp : r.status ≠ "Pending") :
    ∃ r1, findById (step C db op).1.requests rid = some r1 ∧ r1.status ≠ "Pending" := by
  cases op with
  | submit f hid body now =>
    simp only [step]
    rcases send_requests_new C f db hid body now with e | ⟨req, e, _, _⟩
    · rw [e]; exact ⟨r, hr, hp⟩
    · rw [e]
      refine ⟨r, ?_, hp⟩
      unfold findById at hr ⊢
      rw [List.find?_append, hr]
      rfl
  | labList f c => simp only [step, labList_db]; exact ⟨r, hr, hp⟩
  | hospitalList f c => simp only [step, hospitalList_db]; exact ⟨r, hr, hp⟩
  | accept f rid1 =>
    simp only [step]
    rcases accept_cases f db rid1 with ⟨e, _⟩ | ⟨r0, s, hr0, _, _, _, _, e, _⟩
        | ⟨_, _, _, _, _, _, _, e, _⟩
    · rw [e]; exact ⟨r, hr, hp⟩
    · rw [e]
      by_cases hid : rid = rid1
      · subst hid
        exact ⟨_, findById_saveRequest _ _ r0 { r0 with status := "Accepted" } hr0 rfl,
          by show "Accepted" ≠ "Pending"; decide⟩
      · refine ⟨r, ?_, hp⟩
        show findById (saveRequest db.requests { r0 with status := "Accepted" }) rid = some r
        rw [findById_saveRequest_other _ _ _ (by
          show rid ≠ r0._id
          rw [findById_id hr0]; exact hid)]
        exact hr
    · rw [e]; exact ⟨r, hr, hp⟩
  | reject f rid1 reason =>
    simp only [step]
    rcases reject_cases f db rid1 reason with ⟨e, _⟩ | ⟨r0, text, hr0, _, _, e, _⟩
    · rw [e]; exact ⟨r, hr, hp⟩
    · rw [e]
      by_cases hid : rid = rid1
      · subst hid
        exact ⟨_, findById_saveRequest _ _ r0
          { r0 with status := "Rejected", reason := some text } hr0 rfl,
          by show "Rejected" ≠ "Pending"; decide⟩
      · refine ⟨r, ?_, hp⟩
        show findById (saveRequest db.requests
          { r0 with status := "Rejected", reason := some text }) rid = some r
        rw [findById_saveRequest_other _ _ _ (by
          show rid ≠ r0._id
          rw [findById_id hr0]; exact hid)]
        exact hr

theorem run_left_pending (C : Casts) (db : Db) (ops : List Op) (rid : ObjectId)
    (r : BloodRequest) (hr : findById db.requests rid = some r) (hp : r.status ≠ "Pending") :
    ∃ r1, findById (run C db ops).requests rid = some r1 ∧ r1.status ≠ "Pending" := by
  induction ops generalizing db r with
  | nil => exact ⟨r, hr, hp⟩
  | cons op t ih =>
    obtain ⟨r1, h1, h2⟩ := step_left_pending C db op rid r hr hp
    exact ih _ r1 h1 h2

theorem run_append (C : Casts) (db : Db) (ops1 ops2 : List Op) :
    run C db (ops1 ++ ops2) = run C (run C db ops1) ops2 := by
  simp [run, List.foldl_append]

/-- C23. From a store with no requests, after every finite sequence of calls no
stored request has status Completed; and a request that is no longer Pending after
some calls is not Pending after any further calls either. -/
theorem completed_and_pending_never_written (C : Casts) (db : Db) (ops1 ops2 : List Op)
    (h0 : db.requests = []) :
    (∀ d ∈ (run C db ops1).requests, d.status ≠ "Completed")
      ∧ (∀ rid r, findById (run C db ops1).requests rid = some r → r.status ≠ "Pending" →
        ∃ r1, findById (run C db (ops1 ++ ops2)).requests rid = some r1
          ∧ r1.status ≠ "Pending") := by
  refine ⟨run_not_completed C db ops1 (by simp [h0]), fun rid r hr hp => ?_⟩
  rw [run_append]
  exact run_left_pending C _ ops2 rid r hr hp

/-- C23, for a submission and an acceptance followed by a rejection: the request is
Accepted, not Completed, after the first two calls and not Pending after the third. -/
theorem completed_and_pending_never_written_witness :
    freshDb.requests = []
      ∧ ({ sampleRequest with status := "Accepted", createdAt := 5 } : BloodRequest).status
          ≠ "Completed"
      ∧ ∃ r1, findById (run sampleCasts freshDb
            ([sampleSubmit 5, .accept noFaults 1] ++ [.reject noFaults 1 .undefined])).requests 1
          = some r1 ∧ r1.status ≠ "Pending" :=
  ⟨rfl,
    (completed_and_pending_never_written sampleCasts freshDb
      [sampleSubmit 5, .accept noFaults 1] [.reject noFaults 1 .undefined] rfl).1
      { sampleRequest with status := "Accepted", createdAt := 5 } (by decide),
    (completed_and_pending_never_written sampleCasts freshDb
      [sampleSubmit 5, .accept noFaults 1] [.reject noFaults 1 .undefined] rfl).2 1
      { sampleRequest with status := "Accepted", createdAt := 5 } (by decide) (by decide)⟩

/-- C24, as stated, fails: a request that is rejected and then accepted is Accepted
and still carries the reason written by the rejection. -/
theorem accepted_keeps_reason :
    (run sampleCasts freshDb
        [sampleSubmit 5, .reject noFaults 1 .undefined, .accept noFaults 1]).requests
      = [{ sampleRequest with status := "Accepted", reason := some "Not specified",
                              createdAt := 5 }] := by
  decide

theorem run_pending_no_reason (C : Casts) (db : Db) (ops : List Op)
    (h : ∀ d ∈ db.requests, d.status = "Pending" → d.reason = none) :
    ∀ d ∈ (run C db ops).requests, d.status = "Pending" → d.reason = none := by
  induction ops generalizing db with
  | nil => exact h
  | cons op t ih =>
    refine ih _ (step_requests_inv (fun d => d.status = "Pending" → d.reason = none)
      C db op ?_ ?_ ?_ h)
    · intro req _ hn _
      exact hn
    · intro _ _ r _ _ _ hc
      exact absurd hc (by show "Accepted" ≠ "Pending"; decide)
    · intro r _ _ hc
      exact absurd hc (by show "Rejected" ≠ "Pending"; decide)

theorem run_reason_rejected (C : Casts) (db : Db) (ops : List Op)
    (hg : sparesRejectedRun C db ops = true)
    (h : ∀ d ∈ db.requests, d.reason ≠ none → d.status = "Rejected") :
    ∀ d ∈ (run C db ops).requests, d.reason ≠ none → d.status = "Rejected" := by
  induction ops generalizing db with
  | nil => exact h
  | cons op t ih =>
    simp only [sparesRejectedRun, Bool.and_eq_true] at hg
    refine ih _ hg.2 (step_requests_inv (fun d => d.reason ≠ none → d.status = "Rejected")
      C db op ?_ ?_ ?_ h)
    · intro req _ hn hc
      exact absurd hn hc
    · intro f rid r hop hr hP hc
      have hrej : r.status = "Rejected" := hP hc
      have hsp := hg.1
      rw [hop] at hsp
      simp only [sparesRejected, hr, bne_iff_ne, ne_eq] at hsp
      exact absurd hrej hsp
    · intro r text _ _
      rfl

/-- C24, amended. From a store with no requests, after every finite sequence of calls
a request with status Pending has no reason; and when no accept of the sequence is
aimed at a request that is Rejected, every stored request that carries a reason has
status Rejected. -/
theorem reason_only_on_rejected (C : Casts) (db : Db) (ops : List Op)
    (h0 : db.requests = []) :
    (∀ d ∈ (run C db ops).requests, d.status = "Pending" → d.reason = none)
      ∧ (sparesRejectedRun C db ops = true →
        ∀ d ∈ (run C db ops).requests, d.reason ≠ none → d.status = "Rejected") :=
  ⟨run_pending_no_reason C db ops (by simp [h0]),
    fun hg => run_reason_rejected C db ops hg (by simp [h0])⟩

/-- C24, amended, for a submission accepted and then rejected: the one request, which
carries a reason, is Rejected. -/
theorem reason_only_on_rejected_witness :
    freshDb.requests = []
      ∧ sparesRejectedRun sampleCasts freshDb
          [sampleSubmit 5, .accept noFaults 1, .reject noFaults 1 .undefined] = true
      ∧ ({ sampleRequest with status := "Rejected", reason := some "Not specified",
                              createdAt := 5 } : BloodRequest).status = "Rejected" :=
  ⟨rfl, by decide,
    (reason_only_on_rejected sampleCasts freshDb
      [sampleSubmit 5, .accept noFaults 1, .reject noFaults 1 .undefined] rfl).2 (by decide)
      { sampleRequest with status := "Rejected", reason := some "Not specified",
                           createdAt := 5 }
      (by decide) (by simp)⟩

/-! ## Accepting requests one after another -/

theorem asks_spec {db : Db} {lab : ObjectId} {group : String} {units : Int}
    {requestId : ObjectId} (h : asks db lab group units requestId = true) :
    ∃ r, findById db.requests requestId = some r ∧ r.bloodLab = lab ∧ r.bloodGroup = group
      ∧ r.units = units ∧ r.status = "Pending" := by
  unfold asks at h
  split at h
  · next r hr =>
    simp only [Bool.and_eq_true, beq_iff_eq] at h
    exact ⟨r, hr, h.1.1.1, h.1.1.2, h.1.2, h.2⟩
  · exact absurd h (by simp)

theorem asks_congr {db db1 : Db} {lab : ObjectId} {group : String} {units : Int}
    {requestId : ObjectId}
    (h : findById db1.requests requestId = findById db.requests requestId) :
    asks db1 lab group units requestId = asks db lab group units requestId := by
  unfold asks
  rw [h]

theorem served_succ (n : Nat) (quantity units : Int) (hu : 1 ≤ units)
    (hq : units ≤ quantity) :
    served (n + 1) quantity units = served n (quantity - units) units + 1 := by
  have h1 : quantity / units = (quantity - units) / units + 1 := by
    have := Int.add_mul_ediv_right (quantity - units) 1 (show units ≠ 0 by omega)
    rw [← this]; congr 1; ring
  have h2 : 0 ≤ (quantity - units) / units := Int.ediv_nonneg (by omega) (by omega)
  unfold served
  omega

theorem served_of_lt (n : Nat) (quantity units : Int) (h0 : 0 ≤ quantity)
    (hq : quantity < units) : served n quantity units = 0 := by
  unfold served
  rw [Int.ediv_eq_zero_of_lt h0 hq]
  simp

theorem run_accept_cons (C : Casts) (db : Db) (rid : ObjectId) (rest : List Op) :
    run C db (Op.accept noFaults rid :: rest)
      = run C (acceptBloodRequest noFaults db rid).1 rest := rfl

theorem runResponses_accept_cons (C : Casts) (db : Db) (rid : ObjectId) (rest : List Op) :
    runResponses C db (Op.accept noFaults rid :: rest)
      = (acceptBloodRequest noFaults db rid).2
        :: runResponses C (acceptBloodRequest noFaults db rid).1 rest := rfl

/-- Accepting, one after another, pending requests with distinct ids that each ask
the same lab for the same units of the same blood group. -/
theorem accepts_in_turn (C : Casts) (lab : ObjectId) (group : String) (units : Int)
    (hu : 1 ≤ units) (rids : List ObjectId) :
    ∀ (db : Db) (s : Blood), 0 ≤ s.quantity → findOne db.stock lab group = some s →
      rids.Nodup → (∀ rid ∈ rids, asks db lab group units rid = true) →
      (runResponses C db (rids.map (fun rid => Op.accept noFaults rid))).map
          (fun res => res.status)
          = List.replicate (served rids.length s.quantity units) 200
            ++ List.replicate (rids.length - served rids.length s.quantity units) 400
        ∧ quantityOf (run C db (rids.map (fun rid => Op.accept noFaults rid))).stock lab group
          = s.quantity - units * (served rids.length s.quantity units : Nat)
        ∧ (∀ rid ∈ rids.take (served rids.length s.quantity units),
          statusOf (run C db (rids.map (fun rid => Op.accept noFaults rid))) rid
            = some "Accepted")
        ∧ (∀ rid ∈ rids.drop (served rids.length s.quantity units),
          statusOf (run C db (rids.map (fun rid => Op.accept noFaults rid))) rid
            = some "Pending")
        ∧ (∀ id, id ∉ rids →
          findById (run C db (rids.map (fun rid => Op.accept noFaults rid))).requests id
            = findById db.requests id) := by
  induction rids with
  | nil =>
    intro db s _ hs _ _
    refine ⟨by simp [runResponses, served], ?_, by simp, by simp, fun _ _ => rfl⟩
    simp [run, quantityOf, hs, served]
  | cons rid rest ih =>
    intro db s h0 hs hnd hreq
    obtain ⟨hnot, hnd1⟩ := List.nodup_cons.mp hnd
    obtain ⟨r, hr, hl, hg, hun, hpend⟩ := asks_spec (hreq rid (List.mem_cons_self _ _))
    have hs1 : findOne db.stock r.bloodLab r.bloodGroup = some s := by rw [hl, hg]; exact hs
    rw [List.map_cons, run_accept_cons, runResponses_accept_cons]
    by_cases hq : units ≤ s.quantity
    · -- enough stock: this call answers 200 and the rest run on what is left
      have hstep := accept_ok db rid r s hr hs1 (by rw [hun]; exact hq)
      have hid : r._id = rid := findById_id hr
      have hother : ∀ id, id ≠ rid →
          findById (saveRequest db.requests { r with status := "Accepted" }) id
            = findById db.requests id := fun id hne =>
        findById_saveRequest_other _ _ _ (by show id ≠ r._id; rw [hid]; exact hne)
      have hs2 : findOne (saveStock db.stock { s with quantity := s.quantity - r.units })
          lab group = some { s with quantity := s.quantity - r.units } := by
        have := findOne_saveStock db.stock _ _ s { s with quantity := s.quantity - r.units }
          hs1 rfl rfl rfl
        rw [hl, hg] at this
        exact this
      obtain ⟨i1, i2, i3, i4, i5⟩ := ih
        { requests := saveRequest db.requests { r with status := "Accepted" }
          stock := saveStock db.stock { s with quantity := s.quantity - r.units }
          facilities := db.facilities }
        { s with quantity := s.quantity - r.units }
        (by show 0 ≤ s.quantity - r.units; omega) hs2 hnd1
        (fun rid1 h1 => by
          rw [asks_congr (hother rid1 (fun e => hnot (e ▸ h1)))]
          exact hreq rid1 (List.mem_cons_of_mem _ h1))
      have hserved := served_succ rest.length s.quantity units hu hq
      have hqeq : ({ s with quantity := s.quantity - r.units } : Blood).quantity
          = s.quantity - units := by rw [← hun]
      rw [hqeq] at i1 i2 i3 i4
      rw [hstep, List.length_cons, hserved]
      refine ⟨?_, ?_, ?_, ?_, ?_⟩
      · rw [List.map_cons, i1, List.replicate_succ, List.cons_append, Nat.add_sub_add_right]
      · rw [i2]; push_cast; ring
      · intro rid1 h1
        rw [List.take_succ_cons] at h1
        rcases List.mem_cons.mp h1 with rfl | h1
        · unfold statusOf
          rw [i5 _ hnot]
          show (findById (saveRequest db.requests { r with status := "Accepted" }) rid1).map
            (fun r => r.status) = some "Accepted"
          rw [findById_saveRequest db.requests rid1 r { r with status := "Accepted" } hr rfl]
          rfl
        · exact i3 rid1 h1
      · intro rid1 h1
        rw [List.drop_succ_cons] at h1
        exact i4 rid1 h1
      · intro id hnid
        have hne : id ≠ rid := fun e => hnid (e ▸ List.mem_cons_self _ _)
        rw [i5 id (fun h1 => hnid (List.mem_cons_of_mem _ h1))]
        exact hother id hne
    · -- too little stock: this call answers 400 and changes nothing
      have hlt : s.quantity < units := by omega
      have hstep := accept_refused db rid r s hr hs1 (by rw [hun]; exact hlt)
      obtain ⟨i1, i2, i3, i4, i5⟩ := ih db s h0 hs hnd1
        (fun rid1 h1 => hreq rid1 (List.mem_cons_of_mem _ h1))
      have hz := served_of_lt (rest.length + 1) s.quantity units h0 hlt
      have hz1 := served_of_lt rest.length s.quantity units h0 hlt
      rw [hz1] at i1 i2 i3 i4
      rw [hstep, List.length_cons, hz]
      refine ⟨?_, i2, by simp, ?_, ?_⟩
      · rw [List.map_cons, i1]
        simp [List.replicate_succ]
      · intro rid1 h1
        rw [List.drop_zero] at h1 i4
        rcases List.mem_cons.mp h1 with rfl | h1
        · unfold statusOf
          rw [i5 _ hnot, hr]
          show some r.status = some "Pending"
          rw [hpend]
        · exact i4 rid1 h1
      · intro id hnid
        exact i5 id (fun h1 => hnid (List.mem_cons_of_mem _ h1))

/-- C25. When `N` pending requests with distinct ids, each for `units` (at least 1)
of the same blood group at the same lab, are accepted one after another against a
stock record of quantity `Q` (at least 0), the first `min N (Q / units)` calls answer
200 and all later calls answer 400, the final quantity is `Q` minus `units` times
that number, the requests of the calls answered 200 are Accepted and the others are
still Pending. -/
theorem sequential_reservation (C : Casts) (db : Db) (lab : ObjectId) (group : String)
    (units : Int) (s : Blood) (rids : List ObjectId)
    (hu : 1 ≤ units) (h0 : 0 ≤ s.quantity) (hs : findOne db.stock lab group = some s)
    (hnd : rids.Nodup) (hreq : ∀ rid ∈ rids, asks db lab group units rid = true) :
    (runResponses C db (rids.map (fun rid => Op.accept noFaults rid))).map
        (fun res => res.status)
        = List.replicate (served rids.length s.quantity units) 200
          ++ List.replicate (rids.length - served rids.length s.quantity units) 400
      ∧ quantityOf (run C db (rids.map (fun rid => Op.accept noFaults rid))).stock lab group
        = s.quantity - units * (served rids.length s.quantity units : Nat)
      ∧ (∀ rid ∈ rids.take (served rids.length s.quantity units),
        statusOf (run C db (rids.map (fun rid => Op.accept noFaults rid))) rid
          = some "Accepted")
      ∧ (∀ rid ∈ rids.drop (served rids.length s.quantity units),
        statusOf (run C db (rids.map (fun rid => Op.accept noFaults rid))) rid
          = some "Pending") := by
  obtain ⟨h1, h2, h3, h4, _⟩ :=
    accepts_in_turn C lab group units hu rids db s h0 hs hnd hreq
  exact ⟨h1, h2, h3, h4⟩

/-- C25, for three requests of 2 units against a stock of 5: the first two calls
answer 200, the third 400, and 1 unit is left. -/
theorem sequential_reservation_witness :
    served 3 5 2 = 2
      ∧ (runResponses sampleCasts threeDb
          ([1, 2, 3].map (fun rid => Op.accept noFaults rid))).map (fun res => res.status)
        = List.replicate (served [1, 2, 3].length sampleStock.quantity 2) 200
          ++ List.replicate ([1, 2, 3].length - served [1, 2, 3].length sampleStock.quantity 2)
            400
      ∧ quantityOf (run sampleCasts threeDb
          ([1, 2, 3].map (fun rid => Op.accept noFaults rid))).stock 20 "O-"
        = sampleStock.quantity - 2 * (served [1, 2, 3].length sampleStock.quantity 2 : Nat)
      ∧ statusOf (run sampleCasts threeDb
          ([1, 2, 3].map (fun rid => Op.accept noFaults rid))) 1 = some "Accepted"
      ∧ statusOf (run sampleCasts threeDb
          ([1, 2, 3].map (fun rid => Op.accept noFaults rid))) 3 = some "Pending" :=
  ⟨by decide,
    (sequential_reservation sampleCasts threeDb 20 "O-" 2 sampleStock [1, 2, 3] (by decide)
      (by decide) (by decide) (by decide) (by decide)).1,
    (sequential_reservation sampleCasts threeDb 20 "O-" 2 sampleStock [1, 2, 3] (by decide)
      (by decide) (by decide) (by decide) (by decide)).2.1,
    (sequential_reservation sampleCasts threeDb 20 "O-" 2 sampleStock [1, 2, 3] (by decide)
      (by decide) (by decide) (by decide) (by decide)).2.2.1 1 (by decide),
    (sequential_reservation sampleCasts threeDb 20 "O-" 2 sampleStock [1, 2, 3] (by decide)
      (by decide) (by decide) (by decide) (by decide)).2.2.2 3 (by decide)⟩

/-! ## A 200 means the work was done -/

theorem create_eq {C : Casts} {rs rs1 : List BloodRequest} {now : Nat} {h : ObjectId}
    {lab group units : JVal} {req : BloodRequest}
    (hc : create C rs now h lab group units = some (rs1, req)) :
    ∃ l g n, castObjectId C lab = some l ∧ castString group = some g
      ∧ castNumber C units = some n ∧ g ∈ bloodGroups ∧ 1 ≤ n
      ∧ req = { _id := freshId rs, hospital := h, bloodLab := l, bloodGroup := g, units := n,
                status := "Pending", reason := none, createdAt := now }
      ∧ rs1 = rs ++ [req] := by
  unfold create at hc
  split at hc
  · next l g n h1 h2 h3 =>
    split at hc
    · next hv =>
      simp only [Option.some.injEq, Prod.mk.injEq] at hc
      obtain ⟨e1, e2⟩ := hc
      subst e2
      exact ⟨l, g, n, h1, h2, h3, hv.1, hv.2, rfl, e1.symm⟩
    · exact absurd hc (by simp)
  · exact absurd hc (by simp)

theorem send_achieved (C : Casts) (f : Faults) (db : Db) (h : ObjectId) (body : SendBody)
    (now : Nat) (hok : (sendBloodRequest C f db h body now).2.status = 200) :
    Achieved C db (.submit f h body now) (sendBloodRequest C f db h body now) := by
  unfold sendBloodRequest at hok ⊢
  by_cases h0 : (!body.bloodLab.truthy || !body.bloodGroup.truthy || !body.units.truthy) = true
  · rw [if_pos h0] at hok
    simp at hok
  · rw [if_neg h0] at hok ⊢
    by_cases h1 : f.create = true
    · rw [if_pos h1] at hok
      simp at hok
    · rw [if_neg h1] at hok ⊢
      cases hc : create C db.requests now h body.bloodLab body.bloodGroup body.units with
      | none =>
        rw [hc] at hok
        simp at hok
      | some p =>
        obtain ⟨rs1, req⟩ := p
        obtain ⟨l, g, n, c1, c2, c3, c4, c5, e1, e2⟩ := create_eq hc
        subst e1
        exact ⟨l, g, n, c1, c2, c3, c4, c5, by rw [e2], rfl⟩

theorem reject_ok_eq (db : Db) (requestId : ObjectId) (r : BloodRequest) (reason : JVal)
    (text : String) (hr : findById db.requests requestId = some r)
    (hc : castString (reason.or (.str "Not specified")) = some text) :
    rejectBloodRequest noFaults db requestId reason
      = ({ db with
            requests := saveRequest db.requests { r with status := "Rejected", reason := some text } },
          ⟨200, .withRequest "Request Rejected"
            { r with status := "Rejected", reason := some text }⟩) := by
  simp [rejectBloodRequest, noFaults, hr, hc]

/-- A call answered with 200 has done its work. -/
theorem achieved_of_ok (C : Casts) (db : Db) (op : Op)
    (hok : (step C db op).2.status = 200) : Achieved C db op (step C db op) := by
  have hne : (step C db op).2.status ≠ 500 := by rw [hok]; decide
  cases op with
  | submit f h body now => exact send_achieved C f db h body now hok
  | labList f c =>
    have hf : f.find = false := (labList_reported f db c).2 hok
    simp [step, Achieved, getLabRequests, hf]
  | hospitalList f c =>
    have hf : f.find = false := (hospitalList_reported f db c).2 hok
    simp [step, Achieved, getHospitalRequests, hf]
  | accept f rid =>
    simp only [step] at hok hne ⊢
    rcases accept_cases f db rid with ⟨_, h⟩ | ⟨r, s, hr, hs, hq, _, _, _, _⟩
        | ⟨_, _, _, _, _, _, _, _, h⟩
    · exact absurd hok h
    · rw [accept_not500 f db rid hne, accept_ok db rid r s hr hs hq]
      exact ⟨r, s, hr, hs, hq, rfl, rfl⟩
    · rw [h] at hok
      exact absurd hok (by decide)
  | reject f rid reason =>
    simp only [step] at hok hne ⊢
    rcases reject_cases f db rid reason with ⟨_, h⟩ | ⟨r, text, hr, hc, _, _, _⟩
    · exact absurd hok h
    · rw [reject_not500 f db rid reason hne, reject_ok_eq db rid r reason text hr hc]
      exact ⟨r, text, hr, hc, rfl, rfl⟩

/-- A call that has done its work sends a body that no failure response has. -/
theorem achieved_body (C : Casts) (db : Db) (op : Op) (out : Db × Response)
    (h : Achieved C db op out) : ∀ m, out.2.body ≠ .message m := by
  intro m hm
  cases op with
  | submit f hid body now =>
    obtain ⟨_, _, _, _, _, _, _, _, _, hb⟩ := h
    rw [hb] at hm
    exact Payload.noConfusion hm
  | labList f c =>
    obtain ⟨_, hb⟩ := h
    rw [hb] at hm
    exact Payload.noConfusion hm
  | hospitalList f c =>
    obtain ⟨_, hb⟩ := h
    rw [hb] at hm
    exact Payload.noConfusion hm
  | accept f rid =>
    obtain ⟨_, _, _, _, _, _, hb⟩ := h
    rw [hb] at hm
    exact Payload.noConfusion hm
  | reject f rid reason =>
    obtain ⟨_, _, _, _, _, hb⟩ := h
    rw [hb] at hm
    exact Payload.noConfusion hm

/-- C21. Each of the five handlers, on every input and store and whatever storage
calls throw, answers with one response. The status is 200 exactly when the call has
done its work (the request stored, the list sent, the stock and the request written);
whenever it has not, the status is 400, 404 or 500 and the body is a message that is
not empty; a 200 is only sent when none of the storage calls the handler made threw;
and a call answered with another status than 500 ran exactly as it does when storage
works, so that every storage error is answered with 500. -/
theorem failures_reported (C : Casts) (db : Db) (op : Op) :
    ((step C db op).2.status = 200 ↔ Achieved C db op (step C db op))
      ∧ (¬ Achieved C db op (step C db op) →
        (step C db op).2.status ∈ [400, 404, 500]
          ∧ ∃ m, (step C db op).2.body = .message m ∧ m ≠ "")
      ∧ ((step C db op).2.status = 200 → ∀ b ∈ usedFaults op, b = false)
      ∧ ((step C db op).2.status ≠ 500 → step C db op = step C db op.clear) := by
  obtain ⟨⟨⟨hmem, hmsg⟩, hflags⟩, hclear⟩ := step_reported C db op
  have hiff : (step C db op).2.status = 200 ↔ Achieved C db op (step C db op) := by
    constructor
    · exact achieved_of_ok C db op
    · intro ha
      by_contra hne
      obtain ⟨m, hm, _⟩ := hmsg hne
      exact achieved_body C db op _ ha m hm
  refine ⟨hiff, fun hna => ?_, hflags, hclear⟩
  have hne : (step C db op).2.status ≠ 200 := fun h => hna (hiff.mp h)
  refine ⟨?_, hmsg hne⟩
  simp only [List.mem_cons, List.mem_singleton, List.mem_nil_iff, or_false] at hmem ⊢
  rcases hmem with h | h | h | h
  · exact absurd h hne
  · exact Or.inl h
  · exact Or.inr (Or.inl h)
  · exact Or.inr (Or.inr h)

/-! ## Concurrent acceptance -/

/-- An attempt that runs alone does what `acceptBloodRequest` does when storage
works. -/
theorem interleave_alone (db : Db) (requestId : ObjectId) :
    interleave (db, [.start requestId]) [0, 0, 0, 0]
      = ((acceptBloodRequest noFaults db requestId).1,
          [.done (acceptBloodRequest noFaults db requestId).2]) := by
  cases hr : findById db.requests requestId with
  | none => simp [interleave, advance, Attempt.resume, acceptBloodRequest, noFaults, hr]
  | some r =>
    cases hs : findOne db.stock r.bloodLab r.bloodGroup with
    | none => simp [interleave, advance, Attempt.resume, acceptBloodRequest, noFaults, hr, hs]
    | some s =>
      by_cases hq : s.quantity < r.units
      · simp [interleave, advance, Attempt.resume, acceptBloodRequest, noFaults, hr, hs, hq]
      · simp [interleave, advance, Attempt.resume, acceptBloodRequest, noFaults, hr, hs, hq]

/-- C20, as stated, fails: three attempts of 2 units each against a stock of 5, with
their storage calls taken in turn (all three look up their request, all three read
the stock, all three save it, all three save their request), all answer 200, one more
than the whole part of 5 / 2, and the stock is left at 3. -/
theorem concurrent_accepts_overbook :
    ((interleave (threeDb, [.start 1, .start 2, .start 3])
        [0, 1, 2, 0, 1, 2, 0, 1, 2, 0, 1, 2]).2.map
          (fun t => match t with
            | .done res => some res.status
            | _ => none)) = [some 200, some 200, some 200]
      ∧ (interleave (threeDb, [.start 1, .start 2, .start 3])
        [0, 1, 2, 0, 1, 2, 0, 1, 2, 0, 1, 2]).2.countP Attempt.succeeded = 3
      ∧ (5 / 2 : Int).toNat = 2
      ∧ quantityOf (interleave (threeDb, [.start 1, .start 2, .start 3])
        [0, 1, 2, 0, 1, 2, 0, 1, 2, 0, 1, 2]).1.stock 20 "O-" = 3
      ∧ quantityOf threeDb.stock 20 "O-" = 5 := by
  decide

theorem countP_set_same (p : Attempt → Bool) (l : List Attempt) (i : Nat) (a : Attempt)
    (h : i < l.length) (e : p l[i] = p a) : (l.set i a).countP p = l.countP p := by
  rw [List.countP_set p l i a h, e]
  by_cases hp : p a = true
  · have hpos : 0 < l.countP p :=
      List.countP_pos_iff.mpr ⟨l[i], List.getElem_mem _, by rw [e]; exact hp⟩
    simp only [hp, if_true]
    omega
  · simp [hp]

theorem countP_set_gain (p : Attempt → Bool) (l : List Attempt) (i : Nat) (a : Attempt)
    (h : i < l.length) (e : p l[i] = false) (ea : p a = true) :
    (l.set i a).countP p = l.countP p + 1 := by
  rw [List.countP_set p l i a h, e, ea]
  simp

theorem attemptOk_mono (lab : ObjectId) (group : String) (units : Int) (s0 : Blood)
    (rids : List ObjectId) (hu : 0 ≤ units) (w w1 : Nat) (hw : w ≤ w1) (t : Attempt)
    (h : AttemptOk lab group units s0 w rids t) : AttemptOk lab group units s0 w1 rids t := by
  cases t with
  | start rid => exact h
  | found r => exact h
  | saved r => exact h
  | checked r s1 =>
    obtain ⟨h1, h2, h3, h4, h5, h6⟩ := h
    refine ⟨h1, h2, h3, h4, h5, ?_⟩
    have hm : units * ((w + 1 : Nat) : Int) ≤ units * ((w1 + 1 : Nat) : Int) :=
      mul_le_mul_of_nonneg_left (by exact_mod_cast Nat.succ_le_succ hw) hu
    linarith
  | done res =>
    rcases h with h | h
    · exact Or.inl h
    · exact Or.inr (Nat.le_trans h hw)

/-- Replacing one attempt by its next state keeps the run coherent, provided the
store and the new state are in order for the new count of saved stock records. -/
theorem coherent_set (lab : ObjectId) (group : String) (units : Int) (s0 : Blood)
    (rids : List ObjectId) (hu : 0 ≤ units) (db1 : Db) (ts : List Attempt) (i : Nat)
    (t1 : Attempt)
    (hw : ts.countP Attempt.wrote ≤ (ts.set i t1).countP Attempt.wrote)
    (hstock : ∃ s, findOne db1.stock lab group = some s ∧ s._id = s0._id ∧ 0 ≤ s.quantity
      ∧ s0.quantity - units * (((ts.set i t1).countP Attempt.wrote : Nat) : Int) ≤ s.quantity)
    (hreq : ∀ rid ∈ rids, ∃ r, findById db1.requests rid = some r ∧ Fits lab group units r)
    (hold : ∀ t ∈ ts, AttemptOk lab group units s0 (ts.countP Attempt.wrote) rids t)
    (hnew : AttemptOk lab group units s0 ((ts.set i t1).countP Attempt.wrote) rids t1) :
    Coherent lab group units s0 rids (db1, ts.set i t1) := by
  refine ⟨hstock, hreq, fun t ht => ?_⟩
  rcases List.mem_or_eq_of_mem_set ht with h | h
  · exact attemptOk_mono lab group units s0 rids hu _ _ hw t (hold t h)
  · rw [h]; exact hnew

/-- One storage call of one attempt keeps the concurrent run coherent. -/
theorem coherent_advance (lab : ObjectId) (group : String) (units : Int) (s0 : Blood)
    (rids : List ObjectId) (hu : 1 ≤ units) (st : Db × List Attempt) (i : Nat)
    (h : Coherent lab group units s0 rids st) :
    Coherent lab group units s0 rids (advance st i) := by
  obtain ⟨db, ts⟩ := st
  have hu0 : 0 ≤ units := by omega
  unfold advance
  cases hget : ts[i]? with
  | none => simpa only [hget] using h
  | some t =>
    obtain ⟨hi, hti⟩ := List.getElem?_eq_some.mp hget
    have htmem : t ∈ ts := hti ▸ List.getElem_mem hi
    obtain ⟨⟨s, hs, hsid, hs0, hsw⟩, hreq, hall⟩ := h
    have hok := hall t htmem
    obtain ⟨hkl, hkg⟩ := findOne_key hs
    simp only at hs hsw hreq hall hok ⊢
    cases t with
    | start rid =>
      obtain ⟨r, hr, hfit⟩ := hreq rid hok
      have hres : Attempt.resume db (.start rid) = (db, .found r) := by
        simp [Attempt.resume, hr]
      have hc : (ts.set i (.found r)).countP Attempt.wrote = ts.countP Attempt.wrote :=
        countP_set_same _ ts i _ hi (by rw [hti]; rfl)
      rw [hres]
      exact coherent_set lab group units s0 rids hu0 db ts i _ (by rw [hc])
        ⟨s, hs, hsid, hs0, by rw [hc]; exact hsw⟩ hreq hall (by rw [hc]; exact hfit)
    | found r =>
      obtain ⟨hl, hg, hun⟩ := hok
      have hs1 : findOne db.stock r.bloodLab r.bloodGroup = some s := by
        rw [hl, hg]; exact hs
      by_cases hq : s.quantity < r.units
      · have hres : Attempt.resume db (.found r)
            = (db, .done ⟨400, .message "Not enough stock available"⟩) := by
          simp [Attempt.resume, hs1, hq]
        have hc : (ts.set i (.done ⟨400, .message "Not enough stock available"⟩)).countP
            Attempt.wrote = ts.countP Attempt.wrote :=
          countP_set_same _ ts i _ hi (by rw [hti]; rfl)
        rw [hres]
        refine coherent_set lab group units s0 rids hu0 db ts i _ (by rw [hc])
          ⟨s, hs, hsid, hs0, by rw [hc]; exact hsw⟩ hreq hall ?_
        rw [hc]
        right
        have hlt : s0.quantity < ((ts.countP Attempt.wrote : Nat) + 1 : Int) * units := by
          have : ((ts.countP Attempt.wrote : Nat) + 1 : Int) * units
              = units * ((ts.countP Attempt.wrote : Nat) : Int) + units := by ring
          rw [this]
          linarith
        have hdiv : s0.quantity / units < (ts.countP Attempt.wrote : Nat) + 1 :=
          Int.ediv_lt_of_lt_mul (by omega) hlt
        omega
      · have hres : Attempt.resume db (.found r)
            = (db, .checked r { s with quantity := s.quantity - r.units }) := by
          simp [Attempt.resume, hs1, hq]
        have hc : (ts.set i (.checked r { s with quantity := s.quantity - r.units })).countP
            Attempt.wrote = ts.countP Attempt.wrote :=
          countP_set_same _ ts i _ hi (by rw [hti]; rfl)
        rw [hres]
        refine coherent_set lab group units s0 rids hu0 db ts i _ (by rw [hc])
          ⟨s, hs, hsid, hs0, by rw [hc]; exact hsw⟩ hreq hall ?_
        rw [hc]
        refine ⟨⟨hl, hg, hun⟩, hsid, hkl, hkg, ?_, ?_⟩
        · show 0 ≤ s.quantity - r.units
          omega
        · show s0.quantity - units * ((ts.countP Attempt.wrote + 1 : Nat) : Int)
            ≤ s.quantity - r.units
          have : units * ((ts.countP Attempt.wrote + 1 : Nat) : Int)
              = units * ((ts.countP Attempt.wrote : Nat) : Int) + units := by
            push_cast; ring
          rw [this, hun]
          linarith
    | checked r s1 =>
      obtain ⟨hfit, h2, h3, h4, h5, h6⟩ := hok
      have hc : (ts.set i (.saved { r with status := "Accepted" })).countP Attempt.wrote
          = ts.countP Attempt.wrote + 1 :=
        countP_set_gain _ ts i _ hi (by rw [hti]; rfl) rfl
      show Coherent lab group units s0 rids
        ({ db with stock := saveStock db.stock s1 },
          ts.set i (.saved { r with status := "Accepted" }))
      refine coherent_set lab group units s0 rids hu0 _ ts i _ (by rw [hc]; omega)
        ⟨s1, findOne_saveStock db.stock lab group s s1 hs (h2.trans hsid.symm)
          (h3.trans hkl.symm) (h4.trans hkg.symm), h2, h5, by rw [hc]; exact h6⟩
        hreq hall ?_
      exact ⟨hfit.1, hfit.2.1, hfit.2.2⟩
    | saved r1 =>
      have hc : (ts.set i (.done ⟨200, .withRequest "Request Accepted" r1⟩)).countP
          Attempt.wrote = ts.countP Attempt.wrote :=
        countP_set_same _ ts i _ hi (by rw [hti]; rfl)
      show Coherent lab group units s0 rids
        ({ db with requests := saveRequest db.requests r1 },
          ts.set i (.done ⟨200, .withRequest "Request Accepted" r1⟩))
      refine coherent_set lab group units s0 rids hu0 _ ts i _ (by rw [hc])
        ⟨s, hs, hsid, hs0, by rw [hc]; exact hsw⟩ ?_ hall (Or.inl rfl)
      intro rid hrid
      obtain ⟨r, hr, hfit⟩ := hreq rid hrid
      by_cases e : rid = r1._id
      · exact ⟨r1, findById_saveRequest db.requests rid r r1 hr
          (e.symm.trans (findById_id hr).symm), hok⟩
      · exact ⟨r, by
          show findById (saveRequest db.requests r1) rid = some r
          rw [findById_saveRequest_other db.requests rid r1 e]; exact hr, hfit⟩
    | done res =>
      have hc : (ts.set i (.done res)).countP Attempt.wrote = ts.countP Attempt.wrote :=
        countP_set_same _ ts i _ hi (by rw [hti])
      show Coherent lab group units s0 rids (db, ts.set i (.done res))
      exact coherent_set lab group units s0 rids hu0 db ts i _ (by rw [hc])
        ⟨s, hs, hsid, hs0, by rw [hc]; exact hsw⟩ hreq hall (by rw [hc]; exact hok)

theorem coherent_interleave (lab : ObjectId) (group : String) (units : Int) (s0 : Blood)
    (rids : List ObjectId) (hu : 1 ≤ units) (schedule : List Nat) :
    ∀ st : Db × List Attempt, Coherent lab group units s0 rids st →
      Coherent lab group units s0 rids (interleave st schedule) := by
  induction schedule with
  | nil => intro st h; exact h
  | cons i rest ih =>
    intro st h
    exact ih (advance st i) (coherent_advance lab group units s0 rids hu st i h)

theorem advance_length (st : Db × List Attempt) (i : Nat) :
    (advance st i).2.length = st.2.length := by
  unfold advance
  split
  · rfl
  · simp

theorem interleave_length (schedule : List Nat) :
    ∀ st : Db × List Attempt, (interleave st schedule).2.length = st.2.length := by
  induction schedule with
  | nil => intro st; rfl
  | cons i rest ih =>
    intro st
    show (interleave (advance st i) rest).2.length = st.2.length
    rw [ih, advance_length]

theorem coherent_start (db : Db) (lab : ObjectId) (group : String) (units : Int) (s : Blood)
    (rids : List ObjectId) (h0 : 0 ≤ s.quantity) (hs : findOne db.stock lab group = some s)
    (hreq : ∀ rid ∈ rids, asks db lab group units rid = true) :
    Coherent lab group units s rids (db, rids.map Attempt.start) := by
  have hw : (rids.map Attempt.start).countP Attempt.wrote = 0 := by
    rw [List.countP_eq_zero]
    intro a ha
    obtain ⟨rid, _, rfl⟩ := List.mem_map.mp ha
    simp [Attempt.wrote]
  refine ⟨⟨s, hs, rfl, h0, ?_⟩, fun rid hrid => ?_, fun t ht => ?_⟩
  · show s.quantity - units * (((rids.map Attempt.start).countP Attempt.wrote : Nat) : Int)
      ≤ s.quantity
    rw [hw]; simp
  · obtain ⟨r, hr, hl, hg, hun, _⟩ := asks_spec (hreq rid hrid)
    exact ⟨r, hr, hl, hg, hun⟩
  · obtain ⟨rid, hrid, rfl⟩ := List.mem_map.mp ht
    exact hrid

/-- C20, amended. When attempts to accept pending requests, each for `units` (at least
1) of the same blood group at the same lab, run concurrently against a stock record of
quantity `Q` (at least 0), with their storage calls interleaved in any order: after
every number of storage calls, so in every intermediate and final state, the quantity
of the stock record is at least 0; and once all attempts have answered, at least
`min N (Q / units)` and at most `N` of the `N` attempts have answered 200. -/
theorem concurrent_accepts (db : Db) (lab : ObjectId) (group : String) (units : Int)
    (s : Blood) (rids : List ObjectId) (schedule : List Nat)
    (hu : 1 ≤ units) (h0 : 0 ≤ s.quantity) (hs : findOne db.stock lab group = some s)
    (hreq : ∀ rid ∈ rids, asks db lab group units rid = true) :
    0 ≤ quantityOf (interleave (db, rids.map Attempt.start) schedule).1.stock lab group
      ∧ ((∀ t ∈ (interleave (db, rids.map Attempt.start) schedule).2, t.finished = true) →
        served rids.length s.quantity units
            ≤ (interleave (db, rids.map Attempt.start) schedule).2.countP Attempt.succeeded
          ∧ (interleave (db, rids.map Attempt.start) schedule).2.countP Attempt.succeeded
            ≤ rids.length) := by
  have hlen := interleave_length schedule (db, rids.map Attempt.start)
  obtain ⟨⟨s1, hs1, _, hq1, _⟩, _, hall⟩ := coherent_interleave lab group units s rids hu
    schedule _ (coherent_start db lab group units s rids h0 hs hreq)
  simp only [List.length_map] at hlen
  refine ⟨?_, fun hfin => ⟨?_, ?_⟩⟩
  · unfold quantityOf
    rw [hs1]
    exact hq1
  · have hws : (interleave (db, rids.map Attempt.start) schedule).2.countP Attempt.wrote
        = (interleave (db, rids.map Attempt.start) schedule).2.countP Attempt.succeeded := by
      apply List.countP_congr
      intro t ht
      have hf := hfin t ht
      cases t <;> simp_all [Attempt.finished, Attempt.wrote, Attempt.succeeded]
    by_cases hall200 : ∀ t ∈ (interleave (db, rids.map Attempt.start) schedule).2,
        Attempt.succeeded t = true
    · rw [List.countP_eq_length.mpr hall200, hlen]
      exact Nat.min_le_left _ _
    · simp only [not_forall] at hall200
      obtain ⟨t, ht, hns⟩ := hall200
      have hok := hall t ht
      have hf := hfin t ht
      cases t with
      | done res =>
        have hne : res.status ≠ 200 := by
          intro e
          exact hns (by simp [Attempt.succeeded, e])
        rcases hok with h | h
        · exact absurd h hne
        · rw [hws] at h
          exact Nat.le_trans (Nat.min_le_right _ _) h
      | start rid => simp [Attempt.finished] at hf
      | found r => simp [Attempt.finished] at hf
      | checked r s2 => simp [Attempt.finished] at hf
      | saved r => simp [Attempt.finished] at hf
  · rw [← hlen]
    exact List.countP_le_length _

/-- C20, amended, for three attempts of 2 units against a stock of 5 with their storage
calls taken in turn: the stock is left at 3, not below 0, and 3 attempts, at least the
2 that the stock can serve, have answered 200. -/
theorem concurrent_accepts_witness :
    0 ≤ quantityOf (interleave (threeDb, [1, 2, 3].map Attempt.start)
        [0, 1, 2, 0, 1, 2, 0, 1, 2, 0, 1, 2]).1.stock 20 "O-"
      ∧ served [1, 2, 3].length sampleStock.quantity 2
          ≤ (interleave (threeDb, [1, 2, 3].map Attempt.start)
            [0, 1, 2, 0, 1, 2, 0, 1, 2, 0, 1, 2]).2.countP Attempt.succeeded
      ∧ (interleave (threeDb, [1, 2, 3].map Attempt.start)
            [0, 1, 2, 0, 1, 2, 0, 1, 2, 0, 1, 2]).2.countP Attempt.succeeded
          ≤ [1, 2, 3].length :=
  ⟨(concurrent_accepts threeDb 20 "O-" 2 sampleStock [1, 2, 3]
      [0, 1, 2, 0, 1, 2, 0, 1, 2, 0, 1, 2] (by decide) (by decide) (by decide)
      (by decide)).1,
    (concurrent_accepts threeDb 20 "O-" 2 sampleStock [1, 2, 3]
      [0, 1, 2, 0, 1, 2, 0, 1, 2, 0, 1, 2] (by decide) (by decide) (by decide)
      (by decide)).2 (by decide)⟩

end BloodBank
